import Mathlib

/-!
# fabric-configtxlator REST handlers: a shallow embedding

The development embeds the two source files of package `rest`
(`configtxgen_handlers.go`, `configtxlator_handlers.go`).

Conventions of the embedding.

* Go `string` values are Lean `String`s, Go `[]byte` values are lists of
  natural numbers (`Bytes`); `[]byte(s)` and text written to a byte stream
  go through `utf8`.
* Go `error` values are their message text.
* The filesystem is an explicit finite map from lexically cleaned paths to
  nodes, together with an oracle of injected I/O faults.  Paths are resolved
  the way `path/filepath.Clean` does on Unix; there are no symbolic links.
* The process is not the superuser and owns every object, so the owner bits
  of a mode decide: making or removing an entry of a directory needs its
  write bit, passing through a directory needs its search bit, opening a file
  for writing needs its write bit.  A new object gets the requested
  permission bits less those of the process `umask`.  A failure of a reading
  call (`os.Stat`, `os.Open`, `Read`), whatever its cause, is an injected
  fault.
* The collaborators the handlers call into (profile loading, encoders,
  protobuf and JSON marshalling, the ZIP reader, the differ, the sanity
  checker) are parameters.  A collaborator that panics is outside the model.
* `http.ResponseWriter` follows its documented contract: the first
  `WriteHeader` fixes the status and the header map that is sent, a `Write`
  before any `WriteHeader` implies `WriteHeader(200)`, and a response with a
  body and no `Content-Type` gets the one `http.DetectContentType` finds in
  the first 512 bytes of the body.  `http.DetectContentType` is a parameter.
-/

set_option autoImplicit false

namespace Rest

/-! ## Bytes and text -/

abbrev Bytes := List Nat

/-- UTF-8 encoding of one code point. -/
def utf8Char (c : Char) : Bytes :=
  let n := c.toNat
  if n < 0x80 then [n]
  else if n < 0x800 then [0xC0 + n / 64, 0x80 + n % 64]
  else if n < 0x10000 then [0xE0 + n / 4096, 0x80 + (n / 64) % 64, 0x80 + n % 64]
  else [0xF0 + n / 262144, 0x80 + (n / 4096) % 64, 0x80 + (n / 64) % 64, 0x80 + n % 64]

/-- The bytes of a Go string, `[]byte(s)`. -/
def utf8 (s : String) : Bytes :=
  s.data.flatMap utf8Char

/-! ## `path/filepath` on Unix -/

/-- Put a character in front of the first element of a split path. -/
def pushChar (c : Char) : List (List Char) → List (List Char)
  | [] => [[c]]
  | h :: t => (c :: h) :: t

/-- Split a path at every separator; `strings.Split(path, "/")`. -/
def splitSlash : List Char → List (List Char)
  | [] => [[]]
  | c :: cs => if c = '/' then [] :: splitSlash cs else pushChar c (splitSlash cs)

/-- A lexically cleaned path: whether it is rooted, and its elements with the
innermost element first. -/
structure Key where
  rooted : Bool
  stack : List (List Char)
  deriving DecidableEq, Repr

/-- One element of the scan in `filepath.Clean`: empty and `.` elements are
dropped, `..` removes the previous element when there is one to remove, is
dropped at the root, and is kept in a leading run of `..` of a relative path;
any other element is appended. -/
def cleanStep (rooted : Bool) (stk : List (List Char)) (c : List Char) : List (List Char) :=
  if c = [] ∨ c = ['.'] then stk
  else if c = ['.', '.'] then
    match stk with
    | [] => if rooted then [] else [c]
    | top :: rest => if top = ['.', '.'] then c :: stk else rest
  else c :: stk

/-- The path starts with a separator. -/
def isRooted (p : List Char) : Bool :=
  match p with
  | [] => false
  | c :: _ => decide (c = '/')

/-- The cleaned form of a path as a key. -/
def resolve (p : List Char) : Key :=
  { rooted := isRooted p, stack := (splitSlash p).foldl (cleanStep (isRooted p)) [] }

/-- Text of a cleaned path: `/` or `.` for the empty stack, otherwise the
elements outermost first, separated by `/`, after a leading `/` when rooted. -/
def render (k : Key) : List Char :=
  match k.stack with
  | [] => if k.rooted then ['/'] else ['.']
  | _ :: _ => (if k.rooted then ['/'] else []) ++ List.intercalate ['/'] k.stack.reverse

/-- Go `filepath.Clean`. -/
def Clean (path : String) : String :=
  ⟨render (resolve path.data)⟩

/-- Go `filepath.Join` for two elements: empty leading elements are ignored,
the rest is joined with `/` and cleaned; all empty gives the empty string. -/
def Join (a b : String) : String :=
  if a ≠ "" then Clean (a ++ "/" ++ b)
  else if b ≠ "" then Clean b
  else ""

/-- Key `k` lies in the directory `d` or is `d` itself. -/
def Key.within (k d : Key) : Prop :=
  k.rooted = d.rooted ∧ d.stack <:+ k.stack

instance (k d : Key) : Decidable (k.within d) := by
  unfold Key.within; infer_instance

/-- Path `p` resolves inside directory `dir` (or to `dir` itself). -/
def resolvesInside (dir p : String) : Prop :=
  (resolve p.data).within (resolve dir.data)

instance (dir p : String) : Decidable (resolvesInside dir p) := by
  unfold resolvesInside; infer_instance

/-- The path has no `..` element. -/
def noDotDot (p : String) : Prop :=
  ['.', '.'] ∉ splitSlash p.data

instance (p : String) : Decidable (noDotDot p) := by
  unfold noDotDot; infer_instance

/-- The path is relative: it does not start with a separator. -/
def isRelative (p : String) : Prop :=
  isRooted p.data = false

instance (p : String) : Decidable (isRelative p) := by
  unfold isRelative; infer_instance

/-! ## The filesystem -/

/-- A filesystem object: a regular file with its permission bits and content,
or a directory with its permission bits. -/
inductive Node where
  | file (mode : Nat) (data : Bytes)
  | dir (mode : Nat)
  deriving DecidableEq, Repr

/-- The objects of the filesystem, by cleaned path. -/
abbrev FS := List (Key × Node)

def FS.get : FS → Key → Option Node
  | [], _ => none
  | (k', n) :: rest, k => if k' = k then some n else FS.get rest k

def FS.del (fs : FS) (k : Key) : FS :=
  fs.filter (fun e => decide (e.1 ≠ k))

def FS.set (fs : FS) (k : Key) (n : Node) : FS :=
  (k, n) :: fs.del k

/-- Some object lies directly in directory `k`. -/
def FS.hasChild (fs : FS) (k : Key) : Bool :=
  fs.any (fun e => decide (e.1.rooted = k.rooted ∧ e.1.stack ≠ [] ∧ e.1.stack.tail = k.stack))

/-- The calls into the operating system on which a fault can be injected. -/
inductive Op where
  | stat (path : String)
  | mkdirAll (path : String)
  | openRead (path : String)
  | read (path : String)
  | openFile (path : String)
  | write (path : String)
  | remove (path : String)
  deriving DecidableEq, Repr

/-- The environment of a request: the filesystem, the faults the operating
system injects (`none`: the call runs normally), and the file mode creation
mask of the process. -/
structure World where
  fs : FS
  fault : Op → Option String
  umask : Nat := 0

/-- Owner write permission, bit `0200` of a mode. -/
def ownerWrite (mode : Nat) : Bool :=
  mode / 0o200 % 2 == 1

/-- Owner search permission, bit `0100` of a mode. -/
def ownerSearch (mode : Nat) : Bool :=
  mode / 0o100 % 2 == 1

/-- The mode of an object created with `perm`: the nine permission bits of
`perm` that `umask` does not clear. -/
def createMode (perm umask : Nat) : Nat :=
  perm &&& (0o777 ^^^ (umask &&& 0o777))

/-- Whether path resolution may pass through what the filesystem lists at a
position: a listed directory needs its search bit; a position the filesystem
does not list puts no restriction. -/
def Node.searchable : Option Node → Bool
  | some (Node.dir m) => ownerSearch m
  | _ => true

/-- Path resolution may pass through the directory `⟨rooted, stack⟩` and
through every directory above it. -/
def FS.searchable (fs : FS) (rooted : Bool) : List (List Char) → Bool
  | [] => Node.searchable (fs.get ⟨rooted, []⟩)
  | c :: rest => Node.searchable (fs.get ⟨rooted, c :: rest⟩) && FS.searchable fs rooted rest

/-- What `os.Stat` and `os.Lstat` find inside `os.MkdirAll` at `⟨rooted, c :: rest⟩`:
nothing when a directory on the way may not be searched. -/
def statKey (fs : FS) (rooted : Bool) (c : List Char) (rest : List (List Char)) : Option Node :=
  if fs.searchable rooted rest then fs.get ⟨rooted, c :: rest⟩ else none

/-- Go `os.Mkdir` on the cleaned path `⟨rooted, c :: rest⟩`: the directories
above must be searchable, the path must name nothing, and its parent must be a
directory with write permission. -/
def mkdirKey (perm umask : Nat) (rooted : Bool) (c : List Char) (rest : List (List Char))
    (fs : FS) : FS × Option String :=
  if fs.searchable rooted rest then
    match fs.get ⟨rooted, c :: rest⟩ with
    | some _ => (fs, some "mkdir: file exists")
    | none =>
      match fs.get ⟨rooted, rest⟩ with
      | some (Node.dir m) =>
        if ownerWrite m then
          (fs.set ⟨rooted, c :: rest⟩ (Node.dir (createMode perm umask)), none)
        else (fs, some "mkdir: permission denied")
      | some (Node.file _ _) => (fs, some "mkdir: not a directory")
      | none => (fs, some "mkdir: no such file or directory")
  else (fs, some "mkdir: permission denied")

/-- What a path names; the empty path names nothing. -/
def World.lookup (w : World) (path : String) : Option Node :=
  if path = "" then none else w.fs.get (resolve path.data)

/-- No fault is injected on any call. -/
def World.faultFree (w : World) : Prop :=
  ∀ op, w.fault op = none

/-- Go `os.Stat`. -/
def World.Stat (w : World) (path : String) : Except String Node :=
  match w.fault (Op.stat path) with
  | some e => .error e
  | none =>
    match w.lookup path with
    | none => .error ("stat " ++ path ++ ": no such file or directory")
    | some n => .ok n

/-- Go `os.IsExist` on an error text: the underlying error is `EEXIST` or `ENOTEMPTY`. -/
def osIsExist (err : String) : Bool :=
  ": file exists".data.isSuffixOf err.data || ": directory not empty".data.isSuffixOf err.data

/-- `MkdirAll` on a cleaned path, as `os.MkdirAll` proceeds: when `os.Stat` finds
a directory the call succeeds, when it finds a file the call fails; otherwise
the parent is made first (unless the parent is the root or the working
directory), then `os.Mkdir` makes the directory itself, and when that fails
`os.Lstat` is asked once more whether the directory is there.  The filesystem
returned holds the directories made before an error. -/
def mkdirAllKey (perm umask : Nat) (rooted : Bool) : List (List Char) → FS → FS × Option String
  | [], fs =>
    match fs.get ⟨rooted, []⟩ with
    | some (Node.dir _) => (fs, none)
    | some (Node.file _ _) => (fs, some "mkdir: not a directory")
    | none => (fs, some "mkdir: no such file or directory")
  | c :: rest, fs =>
    match statKey fs rooted c rest with
    | some (Node.dir _) => (fs, none)
    | some (Node.file _ _) => (fs, some "mkdir: not a directory")
    | none =>
      match (if rest = [] then (fs, none) else mkdirAllKey perm umask rooted rest fs) with
      | (fs1, some e) => (fs1, some e)
      | (fs1, none) =>
        match mkdirKey perm umask rooted c rest fs1 with
        | (fs2, none) => (fs2, none)
        | (fs2, some e) =>
          match statKey fs2 rooted c rest with
          | some (Node.dir _) => (fs2, none)
          | _ => (fs2, some e)

/-- Go `os.MkdirAll`. -/
def World.MkdirAll (w : World) (path : String) (perm : Nat) : World × Option String :=
  match w.fault (Op.mkdirAll path) with
  | some e => (w, some e)
  | none =>
    if path = "" then (w, some "mkdir : no such file or directory")
    else
      match mkdirAllKey perm w.umask (resolve path.data).rooted (resolve path.data).stack
        w.fs with
      | (fs, err) => ({ w with fs := fs }, err)

/-- Go `os.OpenFile` with `O_WRONLY|O_CREATE` and, when `trunc`, `O_TRUNC`: the
directories above must be searchable; a directory cannot be opened for
writing; an existing file needs write permission and is kept (emptied when
`trunc`); a missing file is created empty in an existing parent directory
with write permission. -/
def World.OpenFile (w : World) (path : String) (trunc : Bool) (perm : Nat) : Except String World :=
  match w.fault (Op.openFile path) with
  | some e => .error e
  | none =>
    if path = "" then .error "open : no such file or directory"
    else
      let k := resolve path.data
      if w.fs.searchable k.rooted k.stack.tail then
        match w.fs.get k with
        | some (Node.dir _) => .error ("open " ++ path ++ ": is a directory")
        | some (Node.file m _) =>
          if ownerWrite m then
            if trunc then .ok { w with fs := w.fs.set k (Node.file m []) } else .ok w
          else .error ("open " ++ path ++ ": permission denied")
        | none =>
          match k.stack with
          | [] => .error ("open " ++ path ++ ": no such file or directory")
          | _ :: rest =>
            match w.fs.get ⟨k.rooted, rest⟩ with
            | some (Node.dir m) =>
              if ownerWrite m then
                .ok { w with fs := w.fs.set k (Node.file (createMode perm w.umask) []) }
              else .error ("open " ++ path ++ ": permission denied")
            | some (Node.file _ _) => .error ("open " ++ path ++ ": not a directory")
            | none => .error ("open " ++ path ++ ": no such file or directory")
      else .error ("open " ++ path ++ ": permission denied")

/-- Writing `data` at offset 0 of a file: the first bytes are replaced, what lies
beyond them stays. -/
def writeAt0 (n : Node) (data : Bytes) : Node :=
  match n with
  | Node.file m old => Node.file m (data ++ old.drop data.length)
  | Node.dir m => Node.dir m

/-- Go `io.Copy` from a source that yields `data` and then ends with `readErr`
(`none`: a clean end of input) into a file just opened for writing at `path`. -/
def World.Copy (w : World) (path : String) (data : Bytes) (readErr : Option String) :
    World × Option String :=
  if data = [] then (w, readErr)
  else
    match w.fault (Op.write path) with
    | some e => (w, some e)
    | none =>
      match w.fs.get (resolve path.data) with
      | some n => ({ w with fs := w.fs.set (resolve path.data) (writeAt0 n data) }, readErr)
      | none => (w, some ("write " ++ path ++ ": bad file descriptor"))

/-- Entries may be added to or removed from the directory `⟨rooted, stack⟩`:
path resolution reaches it and, when it is listed, it has write permission. -/
def FS.writableDir (fs : FS) (rooted : Bool) (stack : List (List Char)) : Bool :=
  fs.searchable rooted stack &&
    (match fs.get ⟨rooted, stack⟩ with
    | some (Node.dir m) => ownerWrite m
    | _ => true)

/-- Go `os.Remove`: removes a file or an empty directory from a directory with
write permission. -/
def World.Remove (w : World) (path : String) : World × Option String :=
  match w.fault (Op.remove path) with
  | some e => (w, some e)
  | none =>
    match w.lookup path with
    | none => (w, some ("remove " ++ path ++ ": no such file or directory"))
    | some n =>
      if w.fs.writableDir (resolve path.data).rooted (resolve path.data).stack.tail then
        match n with
        | Node.file _ _ => ({ w with fs := w.fs.del (resolve path.data) }, none)
        | Node.dir _ =>
          if w.fs.hasChild (resolve path.data) then
            (w, some ("remove " ++ path ++ ": directory not empty"))
          else ({ w with fs := w.fs.del (resolve path.data) }, none)
      else (w, some ("remove " ++ path ++ ": permission denied"))

/-- Go `os.Open`. -/
def World.Open (w : World) (path : String) : Except String Node :=
  match w.fault (Op.openRead path) with
  | some e => .error e
  | none =>
    match w.lookup path with
    | none => .error ("open " ++ path ++ ": no such file or directory")
    | some n => .ok n

/-- One `Read` at the start of an open file into a zeroed buffer of `size`
bytes: the buffer afterwards, the count read, and the error. -/
def World.Read (w : World) (path : String) (f : Node) (size : Nat) : Bytes × Nat × Option String :=
  match w.fault (Op.read path) with
  | some e => (List.replicate size 0, 0, some e)
  | none =>
    match f with
    | Node.dir _ => (List.replicate size 0, 0, some ("read " ++ path ++ ": is a directory"))
    | Node.file _ data =>
      if data = [] then (List.replicate size 0, 0, some "EOF")
      else (data.take size ++ List.replicate (size - data.length) 0, min size data.length, none)

/-! ## `configtxlator_handlers.go`: archive installation -/

/-- An entry of an opened archive, as `unzip` uses a `zip.File`: its recorded
name, `FileInfo().IsDir()`, `Mode()`, the error of `Open()` if any, the
uncompressed content, and the error met while reading the content if any. -/
structure ZipFile where
  Name : String
  IsDir : Bool
  Mode : Nat
  openErr : Option String
  data : Bytes
  copyErr : Option String
  deriving DecidableEq, Repr

/-- Go `zip.OpenReader`: the archive file is opened and its directory parsed;
the parser itself is a parameter. -/
def zipOpenReader (parse : Bytes → Except String (List ZipFile)) (w : World) (archive : String) :
    Except String (List ZipFile) :=
  match w.Open archive with
  | .error e => .error e
  | .ok (Node.dir _) => .error ("read " ++ archive ++ ": is a directory")
  | .ok (Node.file _ data) =>
    match w.fault (Op.read archive) with
    | some e => .error e
    | none => parse data

/-- The loop of `unzip` over `reader.File`. -/
def unzipFiles (target : String) : World → List ZipFile → World × Option String
  | w, [] => (w, none)
  | w, file :: rest =>
    let path := Join target file.Name
    if file.IsDir then
      unzipFiles target (w.MkdirAll path file.Mode).1 rest
    else
      match file.openErr with
      | some e => (w, some e)
      | none =>
        match w.OpenFile path true file.Mode with
        | .error e => (w, some e)
        | .ok w1 =>
          match w1.Copy path file.data file.copyErr with
          | (w2, some e) => (w2, some e)
          | (w2, none) => unzipFiles target w2 rest

/-- Go `unzip(archive, target)`. -/
def unzip (parse : Bytes → Except String (List ZipFile)) (w : World) (archive target : String) :
    World × Option String :=
  match zipOpenReader parse w archive with
  | .error e => (w, some e)
  | .ok files => unzipFiles target w files

/-- Go `isZip(zipPath)`. -/
def isZip (w : World) (zipPath : String) : Bool :=
  match w.Open zipPath with
  | .error _ => false
  | .ok f =>
    match w.Read zipPath f 4 with
    | (buf, n, err) =>
      if err.isSome || n < 4 then false
      else buf == utf8 "PK\x03\x04"

/-- Go `isExist(path)`. -/
def isExist (w : World) (path : String) : Bool :=
  match w.Stat path with
  | .error err => if osIsExist err then true else false
  | .ok _ => true

/-- Go `createDir(filePath)`; `os.ModePerm` is `0777`. -/
def createDir (w : World) (filePath : String) : World × Option String :=
  if !isExist w filePath then w.MkdirAll filePath 0o777
  else (w, none)

/-! ## Shape of cleaned paths -/

/-- An element that `filepath.Clean` keeps: not empty, not `.`, free of separators. -/
def GoodElem (c : List Char) : Prop :=
  c ≠ [] ∧ c ≠ ['.'] ∧ '/' ∉ c

/-- Shape of a cleaned stack: kept elements only, no `..` when rooted, and below
a `..` only further `..`. -/
def CleanStack (rooted : Bool) (stk : List (List Char)) : Prop :=
  (∀ c ∈ stk, GoodElem c) ∧ (rooted = true → ['.', '.'] ∉ stk) ∧
    List.Chain' (fun x y => x = ['.', '.'] → y = ['.', '.']) stk


/-- The elements of a path that a scan keeps when the path has no `..`. -/
def keptElems (p : List Char) : List (List Char) :=
  (splitSlash p).filter (fun c => decide (¬ (c = [] ∨ c = ['.'])))

/-! ## Kinds of filesystem objects -/

/-- The node is a regular file. -/
def Node.isFile : Node → Bool
  | Node.file _ _ => true
  | Node.dir _ => false

/-- The node is a directory. -/
def Node.isDir : Node → Bool
  | Node.file _ _ => false
  | Node.dir _ => true

/-- Key `k` names a regular file. -/
def FS.fileAt (fs : FS) (k : Key) : Prop :=
  ∃ m d, fs.get k = some (Node.file m d)

/-- Key `k` names a directory. -/
def FS.dirAt (fs : FS) (k : Key) : Prop :=
  ∃ m, fs.get k = some (Node.dir m)


/-! ## Extraction state -/

/-- The directory that holds `k`. -/
def Key.parent (k : Key) : Key :=
  ⟨k.rooted, k.stack.tail⟩

/-- The key of the path `unzip` computes for an entry. -/
def entryKey (target : String) (f : ZipFile) : Key :=
  resolve (Join target f.Name).data

/-- A directory with owner write and search permission is at `k`. -/
def FS.openDirAt (fs : FS) (k : Key) : Prop :=
  ∃ m, fs.get k = some (Node.dir m) ∧ ownerWrite m = true ∧ ownerSearch m = true

/-- State of an extraction into `target` after the entries `done`: no faults, the
mask is `umask`, the destination is a reachable directory with write and
search permission, every directory entry done and every directory on the way
to it is a directory with write and search permission, every file entry done
is a file with the bytes of the entry, and below the destination there is
nothing but those files and directories. -/
structure Extracted (target : String) (umask : Nat) (done : List ZipFile) (w : World) : Prop where
  ff : w.faultFree
  mask : w.umask = umask
  tdir : w.fs.openDirAt (resolve target.data)
  reach : w.fs.searchable (resolve target.data).rooted (resolve target.data).stack = true
  dirs : ∀ d ∈ done, d.IsDir = true → ∀ k : Key, k.within (resolve target.data) →
    (entryKey target d).within k → w.fs.openDirAt k
  files : ∀ f ∈ done, f.IsDir = false →
    ∃ m, w.fs.get (entryKey target f) = some (Node.file m f.data)
  only : ∀ k : Key, k.within (resolve target.data) → k ≠ resolve target.data →
    w.fs.get k = none ∨ (∃ f ∈ done, f.IsDir = false ∧ k = entryKey target f) ∨
      (∃ d ∈ done, d.IsDir = true ∧ (entryKey target d).within k)

/-! ## `net/http` -/

/-- An `http.ResponseWriter`: the header map the handler edits, whether the
header has been written, and what has been committed to the client. -/
structure ResponseWriter where
  header : List (String × String)
  wroteHeader : Bool
  status : Nat
  sentHeader : List (String × String)
  body : Bytes
  deriving DecidableEq, Repr

/-- The writer a handler receives. -/
def ResponseWriter.fresh : ResponseWriter :=
  { header := [], wroteHeader := false, status := 0, sentHeader := [], body := [] }

/-- Go `w.WriteHeader(code)`: the first call fixes the status and the headers
that are sent; a later call has no effect. -/
def ResponseWriter.WriteHeader (w : ResponseWriter) (code : Nat) : ResponseWriter :=
  if w.wroteHeader then w
  else { w with wroteHeader := true, status := code, sentHeader := w.header }

/-- Go `w.Write(b)`: writes the header with status 200 first if it has not been
written, then appends to the body.  The `Content-Type` the server adds to a
response without one is found when the response is sent, see
`ResponseWriter.delivered`. -/
def ResponseWriter.Write (w : ResponseWriter) (b : Bytes) : ResponseWriter :=
  let w1 := w.WriteHeader 200
  { w1 with body := w1.body ++ b }

/-- Go `w.Header().Set(key, value)`: edits the handler's header map. -/
def ResponseWriter.SetHeader (w : ResponseWriter) (key value : String) : ResponseWriter :=
  { w with header := (key, value) :: w.header.filter (fun e => decide (e.1 ≠ key)) }

/-- Go `fmt.Fprint(w, s)`. -/
def ResponseWriter.Fprint (w : ResponseWriter) (s : String) : ResponseWriter :=
  w.Write (utf8 s)

/-- A response: its status, its headers and its body. -/
structure Response where
  status : Nat
  header : List (String × String)
  body : Bytes
  deriving DecidableEq, Repr

/-- What the handler has committed when it returns: the status, the headers
fixed by the first `WriteHeader`, and the body.  A handler that returns
without writing the header leaves the server to send status 200 with the
headers set so far. -/
def ResponseWriter.response (w : ResponseWriter) : Response :=
  let w1 := w.WriteHeader 200
  { status := w1.status, header := w1.sentHeader, body := w1.body }

/-- Value of a response header; `none` when it is not sent. -/
def Response.get (r : Response) (key : String) : Option String :=
  (r.header.find? (fun e => decide (e.1 = key))).map (fun e => e.2)

/-- Go `bodyAllowedForStatus`. -/
def bodyAllowedForStatus (status : Nat) : Bool :=
  if 100 ≤ status ∧ status ≤ 199 then false
  else if status = 204 then false
  else if status = 304 then false
  else true

/-- What the client receives: the committed response, to which the server adds
a `Content-Type` found by `http.DetectContentType` when the status allows a
body, the committed headers have no `Content-Type`, no `Content-Encoding` and
no `Transfer-Encoding`, and the body is not empty.  The detection reads no
more than the first 512 bytes.  The `Date` and the framing headers of the
server are not listed. -/
def ResponseWriter.delivered (DetectContentType : Bytes → String) (w : ResponseWriter) :
    Response :=
  if bodyAllowedForStatus w.response.status ∧ w.response.get "Content-Type" = none ∧
      (w.response.get "Content-Encoding").getD "" = "" ∧
      (w.response.get "Transfer-Encoding").getD "" = "" ∧ w.response.body ≠ [] then
    { w.response with
      header := ("Content-Type", DetectContentType (w.response.body.take 512)) ::
        w.response.header }
  else w.response

/-- A `multipart.FileHeader`: the client's file name and the `%v` text of the
MIME header of the part. -/
structure FileHeader where
  Filename : String
  Header : String
  deriving DecidableEq, Repr

/-- A file part found by `r.FormFile`: its header, its content, and the error
met on reading the content to its end, if any. -/
structure Upload where
  handler : FileHeader
  data : Bytes
  readErr : Option String
  deriving DecidableEq, Repr

/-- An `http.Request` as the handlers use it: `r.FormValue` (empty for an absent
key), `r.FormFile`, and the outcome of `ioutil.ReadAll(r.Body)`. -/
structure Request where
  FormValue : String → String
  FormFile : String → Except String Upload
  Body : Except String Bytes

/-- Go `fieldBytes(fieldName, r)`. -/
def fieldBytes (fieldName : String) (r : Request) : Except String Bytes :=
  match r.FormFile fieldName with
  | .error err => .error err
  | .ok fieldFile =>
    match fieldFile.readErr with
    | some err => .error err
    | none => .ok fieldFile.data

/-! ## `configtxgen_handlers.go` -/

/-- The collaborators of the artifact handlers.  `Marshal` functions return the
bytes and the error like `utils.Marshal`; `MarshalToJSON og` is
`protolator.MarshalToJSON` on the `cb.DynamicConsortiumOrgGroup` that holds
the group `og`. -/
structure GenEnv where
  Profile : Type
  TopLevel : Type
  Organization : Type
  Block : Type
  Envelope : Type
  ConfigGroup : Type
  LoadFromBytes : String → Bytes → String → Profile
  LoadTopLevelFromBytes : Bytes → String → TopLevel
  GenesisBlockForChannel : Profile → String → Block
  MarshalBlock : Block → Bytes × Option String
  MakeChannelCreationTransaction : String → Profile → Except String Envelope
  MarshalEnvelope : Envelope → Bytes × Option String
  Organizations : TopLevel → List Organization
  Name : Organization → String
  NewOrdererOrgGroup : Organization → Except String ConfigGroup
  MarshalToJSON : ConfigGroup → Except String Bytes

/-- The calls a handler makes into the collaborators, in order. -/
inductive GenCall where
  | InitFactories
  | LoadFromBytes (profile : String) (configtx : Bytes) (configPath : String)
  | LoadTopLevelFromBytes (configtx : Bytes) (configPath : String)
  | GenesisBlockForChannel (channelID : String)
  | MakeChannelCreationTransaction (channelID : String)
  | Marshal
  | NewOrdererOrgGroup (org : String)
  | MarshalToJSON (org : String)
  deriving DecidableEq, Repr

/-- The calls that load a profile or a top-level configuration, or run a generator. -/
def GenCall.loadsOrGenerates : GenCall → Bool
  | .InitFactories => false
  | _ => true

/-- State at the return of an artifact handler. -/
structure GenResult where
  w : ResponseWriter
  world : World
  calls : List GenCall

/-- Go `ioutil.WriteFile(filename, data, perm)`. -/
def World.WriteFile (w : World) (filename : String) (data : Bytes) (perm : Nat) :
    World × Option String :=
  match w.OpenFile filename true perm with
  | .error e => (w, some e)
  | .ok w1 => w1.Copy filename data none

/-- Go `doOutputBlock(config, channelID, outputBlock)`: the bytes, the error, the
filesystem afterwards and the collaborator calls made. -/
def doOutputBlock (env : GenEnv) (world : World) (config : env.Profile) (channelID : String)
    (outputBlock : String) : Bytes × Option String × World × List GenCall :=
  let genesisBlock := env.GenesisBlockForChannel config channelID
  match env.MarshalBlock genesisBlock with
  | (blockBytes, some err) =>
    (blockBytes, some err, world, [.GenesisBlockForChannel channelID, .Marshal])
  | (blockBytes, none) =>
    if outputBlock ≠ "" then
      let (world1, err) := world.WriteFile outputBlock blockBytes 0o644
      (blockBytes, err, world1, [.GenesisBlockForChannel channelID, .Marshal])
    else (blockBytes, none, world, [.GenesisBlockForChannel channelID, .Marshal])

/-- Go `doOutputChannelCreateTx(conf, channelID, outputChannelCreateTx)`. -/
def doOutputChannelCreateTx (env : GenEnv) (world : World) (conf : env.Profile)
    (channelID : String) (outputChannelCreateTx : String) :
    Bytes × Option String × World × List GenCall :=
  match env.MakeChannelCreationTransaction channelID conf with
  | .error err => ([], some err, world, [.MakeChannelCreationTransaction channelID])
  | .ok configtx =>
    match env.MarshalEnvelope configtx with
    | (configtxBytes, some err) =>
      (configtxBytes, some err, world, [.MakeChannelCreationTransaction channelID, .Marshal])
    | (configtxBytes, none) =>
      if outputChannelCreateTx ≠ "" then
        let (world1, err) := world.WriteFile outputChannelCreateTx configtxBytes 0o644
        (configtxBytes, err, world1, [.MakeChannelCreationTransaction channelID, .Marshal])
      else (configtxBytes, none, world, [.MakeChannelCreationTransaction channelID, .Marshal])

/-- The body of the loop of `doPrintOrg` for an organization whose name matched. -/
def printOrgGroup (env : GenEnv) (org : env.Organization) : Except String Bytes × List GenCall :=
  match env.NewOrdererOrgGroup org with
  | .error err =>
    (.error ("bad org definition for org " ++ env.Name org ++ ": " ++ err),
      [.NewOrdererOrgGroup (env.Name org)])
  | .ok og =>
    match env.MarshalToJSON og with
    | .error err =>
      (.error ("malformed org definition for org: " ++ env.Name org ++ ": " ++ err),
        [.NewOrdererOrgGroup (env.Name org), .MarshalToJSON (env.Name org)])
    | .ok orgBytes =>
      (.ok orgBytes, [.NewOrdererOrgGroup (env.Name org), .MarshalToJSON (env.Name org)])

/-- The loop of `doPrintOrg` over `t.Organizations`. -/
def doPrintOrgLoop (env : GenEnv) (printOrg : String) :
    List env.Organization → Except String Bytes × List GenCall
  | [] => (.error ("organization " ++ printOrg ++ " not found"), [])
  | org :: rest =>
    if env.Name org = printOrg then printOrgGroup env org
    else doPrintOrgLoop env printOrg rest

/-- Go `doPrintOrg(t, printOrg)`. -/
def doPrintOrg (env : GenEnv) (t : env.TopLevel) (printOrg : String) :
    Except String Bytes × List GenCall :=
  doPrintOrgLoop env printOrg (env.Organizations t)

/-- Go `OutputGenesisBlock(w, r)`. -/
def OutputGenesisBlock (env : GenEnv) (world : World) (w : ResponseWriter) (r : Request) :
    GenResult :=
  let profile := r.FormValue "profile"
  if profile = "" then
    ⟨(w.WriteHeader 400).Fprint "Missing field 'profile'\n", world, []⟩
  else
    let channelID := r.FormValue "channelID"
    if channelID = "" then
      ⟨(w.WriteHeader 400).Fprint "Missing field 'channelID'\n", world, []⟩
    else
      match fieldBytes "configtx" r with
      | .error _ => ⟨(w.WriteHeader 400).Fprint "Missing field 'configtx'\n", world, []⟩
      | .ok configtx =>
        let configPath := if r.FormValue "configPath" = "" then "." else r.FormValue "configPath"
        let outputBlock := r.FormValue "outputBlock"
        let profileConfig := env.LoadFromBytes profile configtx configPath
        let calls := [GenCall.InitFactories, GenCall.LoadFromBytes profile configtx configPath]
        match doOutputBlock env world profileConfig channelID outputBlock with
        | (_, some err, world1, cs) =>
          ⟨(w.WriteHeader 500).Fprint ("Error on outputBlock: " ++ err ++ "\n"), world1, calls ++ cs⟩
        | (blockBytes, none, world1, cs) =>
          ⟨(((w.WriteHeader 200).SetHeader "Content-Type" "application/octet-stream").Write
              blockBytes), world1, calls ++ cs⟩

/-- Go `OutputChannelCreateTx(w, r)`. -/
def OutputChannelCreateTx (env : GenEnv) (world : World) (w : ResponseWriter) (r : Request) :
    GenResult :=
  let profile := r.FormValue "profile"
  if profile = "" then
    ⟨(w.WriteHeader 400).Fprint "Missing field 'profile'\n", world, []⟩
  else
    let channelID := r.FormValue "channelID"
    if channelID = "" then
      ⟨(w.WriteHeader 400).Fprint "Missing field 'channelID'\n", world, []⟩
    else
      match fieldBytes "configtx" r with
      | .error _ => ⟨(w.WriteHeader 400).Fprint "Missing field 'configtx'\n", world, []⟩
      | .ok configtx =>
        let configPath := if r.FormValue "configPath" = "" then "." else r.FormValue "configPath"
        let outputCreateChannelTx := r.FormValue "outputCreateChannelTx"
        let profileConfig := env.LoadFromBytes profile configtx configPath
        let calls := [GenCall.InitFactories, GenCall.LoadFromBytes profile configtx configPath]
        match doOutputChannelCreateTx env world profileConfig channelID outputCreateChannelTx with
        | (_, some err, world1, cs) =>
          ⟨(w.WriteHeader 500).Fprint ("Error on outputChannelCreateTx: " ++ err ++ "\n"),
            world1, calls ++ cs⟩
        | (configtxBytes, none, world1, cs) =>
          ⟨(((w.WriteHeader 200).SetHeader "Content-Type" "application/octet-stream").Write
              configtxBytes), world1, calls ++ cs⟩

/-- Go `PrintOrg(w, r)`. -/
def PrintOrg (env : GenEnv) (world : World) (w : ResponseWriter) (r : Request) : GenResult :=
  let printOrg := r.FormValue "printOrg"
  if printOrg = "" then
    ⟨(w.WriteHeader 400).Fprint "Missing field 'printOrg'\n", world, []⟩
  else
    match fieldBytes "configtx" r with
    | .error _ => ⟨(w.WriteHeader 400).Fprint "Missing field 'configtx'\n", world, []⟩
    | .ok configtx =>
      let configPath := if r.FormValue "configPath" = "" then "." else r.FormValue "configPath"
      let topLevelConfig := env.LoadTopLevelFromBytes configtx configPath
      let calls := [GenCall.InitFactories, GenCall.LoadTopLevelFromBytes configtx configPath]
      match doPrintOrg env topLevelConfig printOrg with
      | (.error err, cs) =>
        ⟨(w.WriteHeader 500).Fprint ("Error on printOrg: " ++ err ++ "\n"), world, calls ++ cs⟩
      | (.ok orgBytes, cs) =>
        ⟨(((w.WriteHeader 200).SetHeader "Content-Type" "application/octet-stream").Write
            orgBytes), world, calls ++ cs⟩

/-! ## `configtxlator_handlers.go`: update and sanity check -/

/-- A `cb.ConfigUpdate`: the channel identifier and all its other fields. -/
structure ConfigUpdate (Fields : Type) where
  ChannelId : String
  fields : Fields

/-- The collaborators of the update and sanity-check handlers. -/
structure LatorEnv where
  Config : Type
  UpdateFields : Type
  Messages : Type
  Unmarshal : Bytes → Except String Config
  Compute : Config → Config → Except String (ConfigUpdate UpdateFields)
  Marshal : ConfigUpdate UpdateFields → Except String Bytes
  Check : Config → Except String Messages
  jsonMarshal : Messages → Except String Bytes

/-- The calls into the differ, the protobuf encoder and the sanity checker. -/
inductive LatorCall (env : LatorEnv) where
  | Compute (original updated : env.Config)
  | Marshal (update : ConfigUpdate env.UpdateFields)
  | Check (config : env.Config)
  | jsonMarshal (messages : env.Messages)

/-- State at the return of an update or sanity-check handler. -/
structure LatorResult (env : LatorEnv) where
  w : ResponseWriter
  calls : List (LatorCall env)

/-- Go `fieldConfigProto(fieldName, r)`. -/
def fieldConfigProto (env : LatorEnv) (fieldName : String) (r : Request) :
    Except String env.Config :=
  match fieldBytes fieldName r with
  | .error err => .error ("error reading field bytes: " ++ err)
  | .ok fieldBytes =>
    match env.Unmarshal fieldBytes with
    | .error err => .error ("error unmarshaling field bytes: " ++ err)
    | .ok config => .ok config

/-- Go `ComputeUpdateFromConfigs(w, r)`. -/
def ComputeUpdateFromConfigs (env : LatorEnv) (w : ResponseWriter) (r : Request) :
    LatorResult env :=
  match fieldConfigProto env "original" r with
  | .error err => ⟨(w.WriteHeader 400).Fprint ("Error with field 'original': " ++ err ++ "\n"), []⟩
  | .ok originalConfig =>
    match fieldConfigProto env "updated" r with
    | .error err => ⟨(w.WriteHeader 400).Fprint ("Error with field 'updated': " ++ err ++ "\n"), []⟩
    | .ok updatedConfig =>
      match env.Compute originalConfig updatedConfig with
      | .error err =>
        ⟨(w.WriteHeader 400).Fprint ("Error computing update: " ++ err ++ "\n"),
          [.Compute originalConfig updatedConfig]⟩
      | .ok configUpdate =>
        let configUpdate := { configUpdate with ChannelId := r.FormValue "channel" }
        match env.Marshal configUpdate with
        | .error err =>
          ⟨(w.WriteHeader 500).Fprint ("Error marshaling config update: " ++ err ++ "\n"),
            [.Compute originalConfig updatedConfig, .Marshal configUpdate]⟩
        | .ok encoded =>
          ⟨((w.WriteHeader 200).SetHeader "Content-Type" "application/octet-stream").Write encoded,
            [.Compute originalConfig updatedConfig, .Marshal configUpdate]⟩

/-- Go `SanityCheckConfig(w, r)`. -/
def SanityCheckConfig (env : LatorEnv) (w : ResponseWriter) (r : Request) : LatorResult env :=
  match r.Body with
  | .error err => ⟨(w.WriteHeader 400).Fprint (err ++ "\n"), []⟩
  | .ok buf =>
    match env.Unmarshal buf with
    | .error err =>
      ⟨(w.WriteHeader 400).Fprint ("Error unmarshaling data to common.Config': " ++ err ++ "\n"), []⟩
    | .ok config =>
      match env.Check config with
      | .error err =>
        ⟨(w.WriteHeader 500).Fprint ("Error performing sanity check: " ++ err ++ "\n"),
          [.Check config]⟩
      | .ok sanityCheckMessages =>
        match env.jsonMarshal sanityCheckMessages with
        | .error err =>
          ⟨(w.WriteHeader 500).Fprint ("Error marshaling result to JSON: " ++ err ++ "\n"),
            [.Check config, .jsonMarshal sanityCheckMessages]⟩
        | .ok resBytes =>
          ⟨(w.WriteHeader 200).Write resBytes, [.Check config, .jsonMarshal sanityCheckMessages]⟩

/-! ## `configtxlator_handlers.go`: MSP upload -/

/-- The filesystem calls of the upload handler that the archive invariant is about. -/
inductive UploadCall where
  | unzip (archive target : String)
  | Remove (path : String)
  deriving DecidableEq, Repr

/-- State at the return of the upload handler. -/
structure UploadResult where
  w : ResponseWriter
  world : World
  calls : List UploadCall

/-- Go `UploadMspFiles(w, r)`.  `fmt.Fprint(w, "... err: %s", err)` prints its
operands one after the other: the text with its verb, then the error. -/
def UploadMspFiles (parse : Bytes → Except String (List ZipFile)) (world : World)
    (w : ResponseWriter) (r : Request) : UploadResult :=
  let destination := r.FormValue "destination"
  if destination = "" then
    ⟨(w.WriteHeader 400).Fprint "Lack of field 'destination'\n", world, []⟩
  else
    match createDir world destination with
    | (world1, some err) =>
      ⟨(w.WriteHeader 400).Fprint ("Create dir err: %s" ++ err), world1, []⟩
    | (world1, none) =>
      match r.FormFile "msp" with
      | .error err => ⟨(w.WriteHeader 400).Fprint ("Form file err: %s" ++ err), world1, []⟩
      | .ok file =>
        let w1 := w.Fprint file.handler.Header
        let zipFile := destination ++ file.handler.Filename
        match world1.OpenFile zipFile false 0o666 with
        | .error err => ⟨(w1.WriteHeader 400).Fprint ("Open file err: %s" ++ err), world1, []⟩
        | .ok world2 =>
          match world2.Copy zipFile file.data file.readErr with
          | (world3, some err) =>
            ⟨(w1.WriteHeader 400).Fprint ("Copy file err: %s" ++ err), world3, []⟩
          | (world3, none) =>
            if isZip world3 zipFile then
              match unzip parse world3 zipFile destination with
              | (world4, some err) =>
                ⟨(w1.WriteHeader 400).Fprint ("Unzip file err: %s" ++ err), world4,
                  [.unzip zipFile destination]⟩
              | (world4, none) =>
                match world4.Remove zipFile with
                | (world5, some err) =>
                  ⟨(w1.WriteHeader 400).Fprint ("Remove file err: %s" ++ err), world5,
                    [.unzip zipFile destination, .Remove zipFile]⟩
                | (world5, none) =>
                  ⟨w1, world5, [.unzip zipFile destination, .Remove zipFile]⟩
            else ⟨w1, world3, []⟩

/-! ## Observations on handler results -/

/-- The calls to the sanity checker among the calls of a handler. -/
def checkCalls {env : LatorEnv} (cs : List (LatorCall env)) : List env.Config :=
  cs.filterMap (fun c => match c with
    | .Check config => some config
    | _ => none)

/-- The response of a required-field rejection: status 400, no header of the
handler, and the one-line body naming the field. -/
def missingField (name : String) : Response :=
  { status := 400, header := [], body := utf8 ("Missing field '" ++ name ++ "'\n") }

/-! ## Concrete environments for evaluation -/

namespace Example

/-- Collaborators that always succeed: a profile is its name, a block is the
profile name followed by the channel identifier, an organization is a name
with a flag telling whether its group can be built. -/
def gen : GenEnv where
  Profile := String
  TopLevel := List (String × Bool)
  Organization := String × Bool
  Block := Bytes
  Envelope := Bytes
  ConfigGroup := String
  LoadFromBytes := fun profile _ _ => profile
  LoadTopLevelFromBytes := fun _ _ => [("Org1", true), ("Org2", false), ("Org1", false)]
  GenesisBlockForChannel := fun profile channelID => utf8 (profile ++ channelID)
  MarshalBlock := fun b => (b, none)
  MakeChannelCreationTransaction := fun channelID _ => .ok (utf8 channelID)
  MarshalEnvelope := fun e => (e, none)
  Organizations := fun t => t
  Name := fun org => org.1
  NewOrdererOrgGroup := fun org => if org.2 then .ok org.1 else .error "no MSP"
  MarshalToJSON := fun g => .ok (utf8 g)

/-- A differ that tags its result with the channel `differ` and a checker that
reports one diagnostic; the empty buffer does not parse. -/
def lator : LatorEnv where
  Config := Bytes
  UpdateFields := Bytes
  Messages := List String
  Unmarshal := fun b => if b = [] then .error "unexpected EOF" else .ok b
  Compute := fun original updated => .ok { ChannelId := "differ", fields := original ++ updated }
  Marshal := fun u => .ok (utf8 u.ChannelId ++ u.fields)
  Check := fun c => if c = [0] then .error "no channel group" else .ok ["ok"]
  jsonMarshal := fun m => .ok (utf8 (String.join m))

/-- A filesystem with the directories `/data` and `/data/msp` and no faults. -/
def world : World where
  fs := [(⟨true, ["msp".data, "data".data]⟩, Node.dir 0o755), (⟨true, ["data".data]⟩, Node.dir 0o755)]
  fault := fun _ => none

/-- A file part with the given name and content that reads without error. -/
def upload (filename : String) (data : Bytes) : Upload :=
  { handler := { Filename := filename, Header := "map[]" }, data := data, readErr := none }

/-- A request from its form values and file parts; absent keys give the empty
value and `http: no such file`. -/
def request (values : List (String × String)) (files : List (String × Upload)) (body : Bytes) :
    Request where
  FormValue := fun key => ((values.find? (fun e => decide (e.1 = key))).map (fun e => e.2)).getD ""
  FormFile := fun key =>
    match files.find? (fun e => decide (e.1 = key)) with
    | some e => .ok e.2
    | none => .error "http: no such file"
  Body := .ok body

end Example

namespace Example

/-- An archive reader that finds the directory entry `a/` and the file entry
`a/b.txt` in every archive. -/
def parse : Bytes → Except String (List ZipFile) :=
  fun _ => .ok [⟨"a/", true, 0o755, none, [], none⟩, ⟨"a/b.txt", false, 0o644, none, [1, 2], none⟩]

/-- An upload of `msp.zip`, which starts with the archive signature, to `/data/msp/`. -/
def uploadRequest : Request :=
  request [("destination", "/data/msp/")]
    [("msp", upload "msp.zip" [0x50, 0x4B, 0x03, 0x04, 0x14])] []

end Example

namespace Example

/-- The filesystem of `world` with the archive file `/a.zip` next to `/data`. -/
def archiveWorld : World where
  fs := (⟨true, ["a.zip".data]⟩, Node.file 0o644 [0x50, 0x4B, 0x03, 0x04]) :: world.fs
  fault := fun _ => none

/-- The directory entry `a/` followed by the file entry `a/b.txt`. -/
def entries : List ZipFile :=
  [⟨"a/", true, 0o755, none, [], none⟩, ⟨"a/b.txt", false, 0o644, none, [1, 2], none⟩]

end Example

namespace Example

/-- A stand-in for `http.DetectContentType` that knows its last two rules: bytes
without a binary control byte are `text/plain; charset=utf-8`, all others are
`application/octet-stream`. -/
def detect (b : Bytes) : String :=
  if b.any (fun x => x ≤ 0x08 || x == 0x0B || (0x0E ≤ x && x ≤ 0x1A) ||
      (0x1C ≤ x && x ≤ 0x1F)) then "application/octet-stream"
  else "text/plain; charset=utf-8"

/-- The collaborators of `gen`, with artifacts that start like a serialized
protobuf message: a field tag, a length, and binary content. -/
def genProto : GenEnv where
  Profile := String
  TopLevel := List (String × Bool)
  Organization := String × Bool
  Block := Bytes
  Envelope := Bytes
  ConfigGroup := String
  LoadFromBytes := fun profile _ _ => profile
  LoadTopLevelFromBytes := fun _ _ => [("Org1", true), ("Org2", false), ("Org1", false)]
  GenesisBlockForChannel := fun profile channelID =>
    0x0A :: 0x22 :: 0x1A :: utf8 (profile ++ channelID)
  MarshalBlock := fun b => (b, none)
  MakeChannelCreationTransaction := fun channelID _ => .ok (0x0A :: 0x12 :: 0x08 :: utf8 channelID)
  MarshalEnvelope := fun e => (e, none)
  Organizations := fun t => t
  Name := fun org => org.1
  NewOrdererOrgGroup := fun org => if org.2 then .ok org.1 else .error "no MSP"
  MarshalToJSON := fun g => .ok (utf8 g)

end Example

/-! ## Facts about paths -/

theorem splitSlash_ne_nil (p : List Char) : splitSlash p ≠ [] := by
  cases p with
  | nil => simp [splitSlash]
  | cons c cs =>
    unfold splitSlash
    split
    · simp
    · cases splitSlash cs <;> simp [pushChar]

theorem pushChar_append (c : Char) (l m : List (List Char)) (h : l ≠ []) :
    pushChar c (l ++ m) = pushChar c l ++ m := by
  cases l with
  | nil => exact absurd rfl h
  | cons x xs => simp [pushChar]

theorem splitSlash_append (a b : List Char) :
    splitSlash (a ++ '/' :: b) = splitSlash a ++ splitSlash b := by
  induction a with
  | nil => simp [splitSlash]
  | cons c cs ih =>
    by_cases hc : c = '/'
    · simp [splitSlash, hc, ih]
    · have e : splitSlash ((c :: cs) ++ '/' :: b) = pushChar c (splitSlash (cs ++ '/' :: b)) := by
        simp [splitSlash, hc]
      rw [e, ih, pushChar_append c _ _ (splitSlash_ne_nil cs)]
      simp [splitSlash, hc]

theorem splitSlash_no_slash (p : List Char) : ∀ c ∈ splitSlash p, '/' ∉ c := by
  induction p with
  | nil => simp [splitSlash]
  | cons a as ih =>
    intro c hc
    by_cases ha : a = '/'
    · simp only [splitSlash, ha, if_true, List.mem_cons] at hc
      rcases hc with rfl | hc
      · simp
      · exact ih c hc
    · simp only [splitSlash, ha, if_false] at hc
      cases h : splitSlash as with
      | nil => exact absurd h (splitSlash_ne_nil as)
      | cons x xs =>
        rw [h] at hc ih
        simp only [pushChar, List.mem_cons] at hc
        rcases hc with rfl | hc
        · intro hmem
          simp only [List.mem_cons] at hmem
          rcases hmem with hm | hm
          · exact ha hm.symm
          · exact ih x (by simp) hm
        · exact ih c (by simp [hc])

/-- Splitting the separator-joined text of elements that hold no separator gives
the elements back. -/
theorem splitSlash_intercalate (l : List (List Char)) (hl : l ≠ [])
    (h : ∀ c ∈ l, '/' ∉ c) : splitSlash (List.intercalate ['/'] l) = l := by
  induction l with
  | nil => exact absurd rfl hl
  | cons x xs ih =>
    have hx : '/' ∉ x := h x (by simp)
    have hsingle : ∀ y : List Char, '/' ∉ y → splitSlash y = [y] := by
      intro y hy
      induction y with
      | nil => simp [splitSlash]
      | cons a as iha =>
        have ha : a ≠ '/' := fun e => hy (by simp [e])
        have has : '/' ∉ as := fun e => hy (by simp [e])
        simp [splitSlash, ha, iha has, pushChar]
    cases xs with
    | nil => simpa [List.intercalate] using hsingle x hx
    | cons y ys =>
      have ih' := ih (by simp) (fun c hc => h c (by simp [List.mem_cons] at hc ⊢; tauto))
      have : List.intercalate ['/'] (x :: y :: ys) = x ++ '/' :: List.intercalate ['/'] (y :: ys) := by
        simp [List.intercalate, List.intersperse]
      rw [this, splitSlash_append, hsingle x hx, ih']
      simp

theorem cleanStack_nil (r : Bool) : CleanStack r [] := by
  simp [CleanStack]

theorem goodElem_dotdot : GoodElem ['.', '.'] := by
  simp [GoodElem]

theorem cleanStep_cleanStack (r : Bool) (stk : List (List Char)) (c : List Char)
    (hc : '/' ∉ c) (h : CleanStack r stk) : CleanStack r (cleanStep r stk c) := by
  obtain ⟨h1, h2, h3⟩ := h
  unfold cleanStep
  by_cases e1 : c = [] ∨ c = ['.']
  · rw [if_pos e1]; exact ⟨h1, h2, h3⟩
  · rw [if_neg e1]
    push_neg at e1
    by_cases e2 : c = ['.', '.']
    · rw [if_pos e2]
      cases stk with
      | nil =>
        cases r with
        | true => simp [CleanStack]
        | false => subst e2; simp [CleanStack, GoodElem]
      | cons top rest =>
        by_cases e3 : top = ['.', '.']
        · simp only [e3, if_true]
          subst e2 e3
          refine ⟨?_, ?_, ?_⟩
          · intro x hx
            rcases List.mem_cons.1 hx with rfl | hx
            · exact goodElem_dotdot
            · exact h1 x hx
          · intro hr; exact absurd (List.mem_cons_self _ _) (h2 hr)
          · exact List.Chain'.cons (fun _ => rfl) h3
        · simp only [e3, if_false]
          refine ⟨fun x hx => h1 x (List.mem_cons_of_mem _ hx), ?_, h3.tail⟩
          intro hr hm
          exact h2 hr (List.mem_cons_of_mem _ hm)
    · rw [if_neg e2]
      refine ⟨?_, ?_, ?_⟩
      · intro x hx
        rcases List.mem_cons.1 hx with rfl | hx
        · exact ⟨e1.1, e1.2, hc⟩
        · exact h1 x hx
      · intro hr hm
        rcases List.mem_cons.1 hm with hm | hm
        · exact e2 hm.symm
        · exact h2 hr hm
      · cases stk with
        | nil => exact List.chain'_singleton _
        | cons top rest => exact List.Chain'.cons (fun e => absurd e e2) h3

theorem foldl_cleanStep_cleanStack (r : Bool) (l : List (List Char)) :
    ∀ stk, (∀ c ∈ l, '/' ∉ c) → CleanStack r stk → CleanStack r (l.foldl (cleanStep r) stk) := by
  induction l with
  | nil => intro stk _ h; exact h
  | cons c cs ih =>
    intro stk hl h
    simp only [List.foldl_cons]
    exact ih _ (fun x hx => hl x (List.mem_cons_of_mem _ hx))
      (cleanStep_cleanStack r stk c (hl c (List.mem_cons_self _ _)) h)

theorem resolve_cleanStack (p : List Char) : CleanStack (resolve p).rooted (resolve p).stack :=
  foldl_cleanStep_cleanStack _ _ _ (splitSlash_no_slash p) (cleanStack_nil _)

theorem chain_no_dotdot (c : List Char) (t : List (List Char))
    (h : List.Chain' (fun x y => y = ['.', '.'] → x = ['.', '.']) (c :: t))
    (hc : c ≠ ['.', '.']) : ['.', '.'] ∉ t := by
  induction t generalizing c with
  | nil => simp
  | cons y ys ih =>
    rw [List.chain'_cons] at h
    have hy : y ≠ ['.', '.'] := fun e => hc (h.1 e)
    intro hm
    rcases List.mem_cons.1 hm with hm | hm
    · exact hy hm.symm
    · exact ih y h.2 hy hm

/-- Scanning elements that are already in cleaned order pushes every one of them. -/
theorem foldl_cleanStep_good (r : Bool) (l : List (List Char)) :
    ∀ acc, (∀ c ∈ l, GoodElem c) → (r = true → ['.', '.'] ∉ l) →
      List.Chain' (fun x y => y = ['.', '.'] → x = ['.', '.']) l →
      (['.', '.'] ∈ l → ∀ x ∈ acc, x = ['.', '.']) →
      l.foldl (cleanStep r) acc = l.reverse ++ acc := by
  induction l with
  | nil => intro acc _ _ _ _; simp
  | cons c cs ih =>
    intro acc hg hr hch hacc
    have gc := hg c (List.mem_cons_self _ _)
    simp only [List.foldl_cons, List.reverse_cons, List.append_assoc, List.singleton_append]
    have hstep : cleanStep r acc c = c :: acc := by
      unfold cleanStep
      rw [if_neg (by push_neg; exact ⟨gc.1, gc.2.1⟩)]
      by_cases e2 : c = ['.', '.']
      · rw [if_pos e2]
        have hr' : r = false := by
          cases r with
          | false => rfl
          | true => exact absurd (by simp [e2]) (hr rfl)
        cases acc with
        | nil => simp [hr']
        | cons top rest =>
          have : top = ['.', '.'] := hacc (by simp [e2]) top (List.mem_cons_self _ _)
          simp [this]
      · rw [if_neg e2]
    rw [hstep]
    apply ih
    · exact fun x hx => hg x (List.mem_cons_of_mem _ hx)
    · exact fun h hm => hr h (List.mem_cons_of_mem _ hm)
    · exact hch.tail
    · intro hm x hx
      by_cases e2 : c = ['.', '.']
      · rcases List.mem_cons.1 hx with rfl | hx
        · exact e2
        · exact hacc (List.mem_cons_of_mem _ hm) x hx
      · exact absurd hm (chain_no_dotdot c cs hch e2)

theorem foldl_cleanStep_reverse (r : Bool) (stk : List (List Char)) (h : CleanStack r stk) :
    stk.reverse.foldl (cleanStep r) [] = stk := by
  obtain ⟨h1, h2, h3⟩ := h
  have := foldl_cleanStep_good r stk.reverse []
    (fun c hc => h1 c (List.mem_reverse.1 hc))
    (fun hr hm => h2 hr (List.mem_reverse.1 hm))
    (by rw [List.chain'_reverse]; exact h3)
    (fun _ x hx => absurd hx (List.not_mem_nil _))
  simpa using this

theorem isRooted_intercalate (y : List Char) (ys : List (List Char)) (hy : GoodElem y) :
    isRooted (List.intercalate ['/'] (y :: ys)) = false := by
  obtain ⟨h1, _, h3⟩ := hy
  cases y with
  | nil => exact absurd rfl h1
  | cons a as =>
    have ha : a ≠ '/' := fun e => h3 (by simp [e])
    have : ∃ t, List.intercalate ['/'] ((a :: as) :: ys) = a :: t := by
      cases ys <;> simp [List.intercalate, List.intersperse]
    obtain ⟨t, ht⟩ := this
    rw [ht]
    simp [isRooted, ha]

/-- Cleaning is idempotent: the text of a cleaned path resolves to the same key. -/
theorem resolve_render (k : Key) (h : CleanStack k.rooted k.stack) : resolve (render k) = k := by
  obtain ⟨r, stk⟩ := k
  simp only at h
  cases hs : stk with
  | nil =>
    cases r <;> simp [render, resolve, isRooted, splitSlash, pushChar, cleanStep]
  | cons top rest =>
    have hne : stk.reverse ≠ [] := by simp [hs]
    have hno : ∀ c ∈ stk.reverse, '/' ∉ c := fun c hc => (h.1 c (List.mem_reverse.1 hc)).2.2
    have hsplit := splitSlash_intercalate stk.reverse hne hno
    have hfold := foldl_cleanStep_reverse r stk h
    cases r with
    | true =>
      have hr : render ⟨true, stk⟩ = '/' :: List.intercalate ['/'] stk.reverse := by
        simp [render, hs]
      rw [← hs, hr]
      simp only [resolve, isRooted, splitSlash, if_true, hsplit, List.foldl_cons]
      simp [cleanStep, hfold]
    | false =>
      have hr : render ⟨false, stk⟩ = List.intercalate ['/'] stk.reverse := by
        simp [render, hs]
      rw [← hs, hr]
      obtain ⟨y, ys, hys⟩ := List.exists_cons_of_ne_nil hne
      have hroot : isRooted (List.intercalate ['/'] stk.reverse) = false := by
        rw [hys]
        exact isRooted_intercalate y ys (h.1 y (List.mem_reverse.1 (by simp [hys])))
      simp only [resolve, hroot, hsplit, hfold]

theorem resolve_Clean (p : String) : resolve (Clean p).data = resolve p.data := by
  simp only [Clean]
  exact resolve_render _ (resolve_cleanStack _)

/-! ## Keys of joined paths -/

theorem isRooted_append (a b : List Char) (h : a ≠ []) : isRooted (a ++ b) = isRooted a := by
  cases a with
  | nil => exact absurd rfl h
  | cons c cs => simp only [List.cons_append, isRooted]

theorem data_ne_nil (s : String) (h : s ≠ "") : s.data ≠ [] := by
  intro e
  apply h
  cases s
  simp_all

/-- The key of `filepath.Join(target, name)` for a non-empty target: the scan of
the target continued over the elements of the name. -/
theorem resolve_Join (target name : String) (ht : target ≠ "") :
    resolve (Join target name).data =
      ⟨isRooted target.data,
        (splitSlash name.data).foldl (cleanStep (isRooted target.data)) (resolve target.data).stack⟩ := by
  have hd := data_ne_nil target ht
  simp only [Join, ne_eq, ht, not_false_eq_true, if_true]
  rw [resolve_Clean]
  have e : (target ++ "/" ++ name).data = target.data ++ '/' :: name.data := by
    simp [String.data_append]
  rw [e]
  simp only [resolve, isRooted_append _ _ hd, splitSlash_append, List.foldl_append]

theorem foldl_cleanStep_noDotDot (r : Bool) (l : List (List Char)) (h : ['.', '.'] ∉ l) :
    ∀ acc, l.foldl (cleanStep r) acc =
      (l.filter (fun c => decide (¬ (c = [] ∨ c = ['.'])))).reverse ++ acc := by
  induction l with
  | nil => intro acc; simp
  | cons c cs ih =>
    intro acc
    have hc : c ≠ ['.', '.'] := fun e => h (by simp [e])
    have hcs : ['.', '.'] ∉ cs := fun e => h (List.mem_cons_of_mem _ e)
    simp only [List.foldl_cons]
    rw [ih hcs]
    by_cases e1 : c = [] ∨ c = ['.']
    · rw [List.filter_cons_of_neg (by simp only [decide_not, Bool.not_eq_true', decide_eq_false_iff_not, not_not]; exact e1)]
      simp [cleanStep, e1]
    · rw [List.filter_cons_of_pos (by simp only [decide_not, Bool.not_eq_true', decide_eq_false_iff_not]; exact e1)]
      simp [cleanStep, e1, hc]

/-- The key of a joined path whose name has no `..`: the kept elements of the
name on top of the stack of the target. -/
theorem resolve_Join_noDotDot (target name : String) (ht : target ≠ "") (hn : noDotDot name) :
    resolve (Join target name).data =
      ⟨(resolve target.data).rooted, (keptElems name.data).reverse ++ (resolve target.data).stack⟩ := by
  rw [resolve_Join target name ht, foldl_cleanStep_noDotDot _ _ hn]
  rfl

/-! ## Facts about the filesystem map -/

theorem FS.get_del (fs : FS) (k k' : Key) :
    (fs.del k).get k' = if k' = k then none else fs.get k' := by
  induction fs with
  | nil => simp [FS.del, FS.get]
  | cons e rest ih =>
    obtain ⟨k0, n⟩ := e
    simp only [FS.del] at ih ⊢
    by_cases h0 : k0 = k
    · subst h0
      simp only [List.filter_cons, ne_eq, not_true_eq_false, decide_False, Bool.false_eq_true,
        if_false, ih, FS.get]
      by_cases h1 : k' = k0
      · simp [h1]
      · have : ¬ k0 = k' := fun e => h1 e.symm
        simp [h1, this]
    · simp only [List.filter_cons, ne_eq, h0, not_false_eq_true, decide_True, if_true, FS.get, ih]
      by_cases h1 : k0 = k'
      · have : ¬ k' = k := fun e => h0 (h1.trans e)
        simp [h1, this]
      · simp [h1]

theorem FS.get_set (fs : FS) (k k' : Key) (n : Node) :
    (fs.set k n).get k' = if k' = k then some n else fs.get k' := by
  simp only [FS.set, FS.get, FS.get_del]
  by_cases h : k = k'
  · simp [h]
  · have : ¬ k' = k := fun e => h e.symm
    simp [h, this]

theorem FS.get_set_self (fs : FS) (k : Key) (n : Node) : (fs.set k n).get k = some n := by
  simp [FS.get_set]

theorem FS.get_set_ne (fs : FS) (k k' : Key) (n : Node) (h : k' ≠ k) :
    (fs.set k n).get k' = fs.get k' := by
  simp [FS.get_set, h]

/-! ## Archive detection -/

theorem utf8_signature : utf8 "PK\x03\x04" = [0x50, 0x4B, 0x03, 0x04] := by
  decide

theorem isZip_of_file (w : World) (zipPath : String) (mode : Nat) (data : Bytes)
    (hopen : w.fault (Op.openRead zipPath) = none) (hread : w.fault (Op.read zipPath) = none)
    (hfile : w.lookup zipPath = some (Node.file mode data)) :
    isZip w zipPath = true ↔ 4 ≤ data.length ∧ data.take 4 = [0x50, 0x4B, 0x03, 0x04] := by
  simp only [isZip, World.Open, hopen, hfile, World.Read, hread, utf8_signature]
  by_cases hd : data = []
  · subst hd
    simp
  · simp only [hd, if_false, Option.isSome_none, Bool.false_or, decide_eq_true_eq]
    by_cases hlen : 4 ≤ data.length
    · have h1 : ¬ (min 4 data.length < 4) := by omega
      have h2 : 4 - data.length = 0 := by omega
      simp [h1, h2, hlen]
    · have h1 : min 4 data.length < 4 := by omega
      simp [h1, hlen]

/-- C4.  For a file that can be opened and read, whatever its path, `isZip` is
true exactly when the file holds at least four bytes and the first four are
`0x50 0x4B 0x03 0x04`; a file of fewer than four bytes, the empty file included,
and a path that cannot be opened are not archives. -/
theorem isZip_spec (w : World) (zipPath : String) :
    (∀ mode data, w.fault (Op.openRead zipPath) = none → w.fault (Op.read zipPath) = none →
        w.lookup zipPath = some (Node.file mode data) →
        ((isZip w zipPath = true ↔ 4 ≤ data.length ∧ data.take 4 = [0x50, 0x4B, 0x03, 0x04]) ∧
          (data.length < 4 → isZip w zipPath = false))) ∧
      ((∃ e, w.Open zipPath = .error e) → isZip w zipPath = false) := by
  refine ⟨?_, ?_⟩
  · intro mode data hopen hread hfile
    have h := isZip_of_file w zipPath mode data hopen hread hfile
    refine ⟨h, ?_⟩
    intro hlt
    cases hz : isZip w zipPath with
    | false => rfl
    | true =>
      have := (h.1 hz).1
      omega
  · rintro ⟨e, he⟩
    simp [isZip, he]

/-! ## Organization lookup -/

theorem bad_org_ne_not_found (a b n : String) :
    "bad org definition for org " ++ a ++ ": " ++ b ≠ "organization " ++ n ++ " not found" := by
  intro h
  have := congrArg (fun s => s.data.head?) h
  simp [String.data_append] at this

theorem malformed_org_ne_not_found (a b n : String) :
    "malformed org definition for org: " ++ a ++ ": " ++ b ≠
      "organization " ++ n ++ " not found" := by
  intro h
  have := congrArg (fun s => s.data.head?) h
  simp [String.data_append] at this

theorem printOrgGroup_ne_not_found (env : GenEnv) (org : env.Organization) (n : String) :
    (printOrgGroup env org).1 ≠ .error ("organization " ++ n ++ " not found") := by
  unfold printOrgGroup
  cases h1 : env.NewOrdererOrgGroup org with
  | error err =>
    simp only [ne_eq, Except.error.injEq]
    exact bad_org_ne_not_found _ _ _
  | ok og =>
    cases h2 : env.MarshalToJSON og with
    | error err =>
      simp only [h2, ne_eq, Except.error.injEq]
      exact malformed_org_ne_not_found _ _ _
    | ok b => simp [h2]

theorem doPrintOrgLoop_not_found (env : GenEnv) (n : String) (orgs : List env.Organization) :
    (doPrintOrgLoop env n orgs).1 = .error ("organization " ++ n ++ " not found") ↔
      ∀ org ∈ orgs, env.Name org ≠ n := by
  induction orgs with
  | nil => simp [doPrintOrgLoop]
  | cons org rest ih =>
    by_cases h : env.Name org = n
    · simp only [doPrintOrgLoop, h, if_true, List.mem_cons, forall_eq_or_imp, ne_eq,
        not_true_eq_false, false_and, iff_false]
      exact printOrgGroup_ne_not_found env org n
    · simp only [doPrintOrgLoop, h, if_false, List.mem_cons, forall_eq_or_imp, ne_eq,
        not_false_eq_true, true_and]
      exact ih

theorem doPrintOrgLoop_first (env : GenEnv) (n : String) (pre post : List env.Organization)
    (org : env.Organization) (hpre : ∀ o ∈ pre, env.Name o ≠ n) (horg : env.Name org = n) :
    doPrintOrgLoop env n (pre ++ org :: post) = printOrgGroup env org := by
  induction pre with
  | nil => simp [doPrintOrgLoop, horg]
  | cons p ps ih =>
    have hp : env.Name p ≠ n := hpre p (List.mem_cons_self _ _)
    simp only [List.cons_append, doPrintOrgLoop, hp, if_false]
    exact ih (fun o ho => hpre o (List.mem_cons_of_mem _ ho))

/-- C9.  `doPrintOrg` fails with the error `organization n not found` exactly
when no organization of the list is named `n`.  When the list is `pre`, then
an organization `org` named `n`, then `post`, with nobody in `pre` named `n`,
the result is that of `org` alone, whatever `pre` and `post` hold: the JSON
bytes of its group when the group is built and serialized, the error
`bad org definition for org n: cause` when the group cannot be built, the
error `malformed org definition for org: n: cause` when it cannot be
serialized; and the only collaborator calls are those made for `org`. -/
theorem doPrintOrg_spec (env : GenEnv) (t : env.TopLevel) (n : String) :
    ((doPrintOrg env t n).1 = .error ("organization " ++ n ++ " not found") ↔
        ∀ org ∈ env.Organizations t, env.Name org ≠ n) ∧
      (∀ pre org post, env.Organizations t = pre ++ org :: post →
        (∀ o ∈ pre, env.Name o ≠ n) → env.Name org = n →
        (∀ og orgBytes, env.NewOrdererOrgGroup org = .ok og →
          env.MarshalToJSON og = .ok orgBytes →
          doPrintOrg env t n = (.ok orgBytes, [.NewOrdererOrgGroup n, .MarshalToJSON n])) ∧
        (∀ cause, env.NewOrdererOrgGroup org = .error cause →
          doPrintOrg env t n =
            (.error ("bad org definition for org " ++ n ++ ": " ++ cause),
              [.NewOrdererOrgGroup n])) ∧
        (∀ og cause, env.NewOrdererOrgGroup org = .ok og →
          env.MarshalToJSON og = .error cause →
          doPrintOrg env t n =
            (.error ("malformed org definition for org: " ++ n ++ ": " ++ cause),
              [.NewOrdererOrgGroup n, .MarshalToJSON n]))) := by
  refine ⟨doPrintOrgLoop_not_found env n _, ?_⟩
  intro pre org post hsplit hpre horg
  have e : doPrintOrg env t n = printOrgGroup env org := by
    unfold doPrintOrg
    rw [hsplit]
    exact doPrintOrgLoop_first env n pre post org hpre horg
  rw [e]
  refine ⟨?_, ?_, ?_⟩
  · intro og orgBytes h1 h2
    simp only [printOrgGroup, h1, h2, horg]
  · intro cause h1
    simp only [printOrgGroup, h1, horg]
  · intro og cause h1 h2
    simp only [printOrgGroup, h1, h2, horg]

/-! ## Sanity check and update handlers -/

/-- C7.  With the body read in full: an unparsable body gives status 400 and no
call to the sanity checker; a parsable body gives exactly one call, on the
parsed snapshot, status 500 when the checker fails, and status 200 with the
JSON text of the diagnostics as body when the checker succeeds. -/
theorem SanityCheckConfig_spec (env : LatorEnv) (r : Request) (buf : Bytes)
    (hbody : r.Body = .ok buf) :
    (∀ e, env.Unmarshal buf = .error e →
        (SanityCheckConfig env ResponseWriter.fresh r).w.response.status = 400 ∧
        checkCalls (SanityCheckConfig env ResponseWriter.fresh r).calls = []) ∧
      (∀ config, env.Unmarshal buf = .ok config →
        checkCalls (SanityCheckConfig env ResponseWriter.fresh r).calls = [config] ∧
        (∀ e, env.Check config = .error e →
          (SanityCheckConfig env ResponseWriter.fresh r).w.response.status = 500) ∧
        (∀ msgs res, env.Check config = .ok msgs → env.jsonMarshal msgs = .ok res →
          (SanityCheckConfig env ResponseWriter.fresh r).w.response.status = 200 ∧
          (SanityCheckConfig env ResponseWriter.fresh r).w.response.body = res)) := by
  refine ⟨?_, ?_⟩
  · intro e he
    simp [SanityCheckConfig, hbody, he, checkCalls, ResponseWriter.response,
      ResponseWriter.Fprint, ResponseWriter.Write, ResponseWriter.WriteHeader,
      ResponseWriter.fresh]
  · intro config hc
    refine ⟨?_, ?_, ?_⟩
    · simp only [SanityCheckConfig, hbody, hc]
      cases h1 : env.Check config with
      | error e => simp [checkCalls]
      | ok msgs =>
        cases h2 : env.jsonMarshal msgs with
        | error e => simp [h2, checkCalls]
        | ok res => simp [h2, checkCalls]
    · intro e he
      simp [SanityCheckConfig, hbody, hc, he, ResponseWriter.response,
        ResponseWriter.Fprint, ResponseWriter.Write, ResponseWriter.WriteHeader,
        ResponseWriter.fresh]
    · intro msgs res hm hj
      simp [SanityCheckConfig, hbody, hc, hm, hj, ResponseWriter.response,
        ResponseWriter.Write, ResponseWriter.WriteHeader, ResponseWriter.fresh]

/-- C8.  When both snapshots parse and the differ returns `cu`, the update handed
to the encoder is `cu` with its channel identifier replaced by the `channel`
form value and every other field as the differ left it, whatever identifier
`cu` carried; when the encoder succeeds the response is 200 with those bytes. -/
theorem ComputeUpdateFromConfigs_stamps (env : LatorEnv) (r : Request)
    (original updated : env.Config) (cu : ConfigUpdate env.UpdateFields)
    (ho : fieldConfigProto env "original" r = .ok original)
    (hu : fieldConfigProto env "updated" r = .ok updated)
    (hc : env.Compute original updated = .ok cu) :
    (ComputeUpdateFromConfigs env ResponseWriter.fresh r).calls =
        [.Compute original updated,
          .Marshal { ChannelId := r.FormValue "channel", fields := cu.fields }] ∧
      (∀ encoded,
        env.Marshal { ChannelId := r.FormValue "channel", fields := cu.fields } = .ok encoded →
        (ComputeUpdateFromConfigs env ResponseWriter.fresh r).w.response.status = 200 ∧
        (ComputeUpdateFromConfigs env ResponseWriter.fresh r).w.response.body = encoded) := by
  refine ⟨?_, ?_⟩
  · simp only [ComputeUpdateFromConfigs, ho, hu, hc]
    cases h : env.Marshal { ChannelId := r.FormValue "channel", fields := cu.fields } <;>
      simp [h]
  · intro encoded he
    simp [ComputeUpdateFromConfigs, ho, hu, hc, he, ResponseWriter.response,
      ResponseWriter.Write, ResponseWriter.WriteHeader, ResponseWriter.SetHeader,
      ResponseWriter.fresh]

/-! ## Evaluations of the sanity-check, update and lookup results -/

theorem isZip_spec_witness :
    (isZip { fs := [(⟨true, ["a.bin".data]⟩, Node.file 0o644 [0x50, 0x4B, 0x03, 0x04, 0x14])],
             fault := fun _ => none } "/a.bin" = true ↔
        4 ≤ [0x50, 0x4B, 0x03, 0x04, 0x14].length ∧
          [0x50, 0x4B, 0x03, 0x04, 0x14].take 4 = [0x50, 0x4B, 0x03, 0x04]) ∧
      isZip { fs := [(⟨true, ["a.zip".data]⟩, Node.file 0o644 [0x50, 0x4B, 0x03])],
              fault := fun _ => none } "/a.zip" = false ∧
      isZip Example.world "/data/none.zip" = false :=
  ⟨((isZip_spec _ "/a.bin").1 0o644 [0x50, 0x4B, 0x03, 0x04, 0x14] rfl rfl (by decide)).1,
    ((isZip_spec _ "/a.zip").1 0o644 [0x50, 0x4B, 0x03] rfl rfl (by decide)).2 (by decide),
    (isZip_spec Example.world "/data/none.zip").2
      ⟨"open /data/none.zip: no such file or directory", rfl⟩⟩

theorem doPrintOrg_spec_witness :
    ((doPrintOrg Example.gen [("Org2", true)] "Org1").1 =
        .error ("organization " ++ "Org1" ++ " not found")) ∧
      doPrintOrg Example.gen [("Org2", false), ("Org1", true), ("Org1", false)] "Org1" =
        (.ok (utf8 "Org1"), [.NewOrdererOrgGroup "Org1", .MarshalToJSON "Org1"]) ∧
      doPrintOrg Example.gen [("Org2", true), ("Org1", false), ("Org1", true)] "Org1" =
        (.error ("bad org definition for org " ++ "Org1" ++ ": " ++ "no MSP"),
          [.NewOrdererOrgGroup "Org1"]) :=
  ⟨(doPrintOrg_spec Example.gen [("Org2", true)] "Org1").1.2 (by decide),
    ((doPrintOrg_spec Example.gen [("Org2", false), ("Org1", true), ("Org1", false)] "Org1").2
      [("Org2", false)] ("Org1", true) [("Org1", false)] rfl (by decide) rfl).1
        "Org1" (utf8 "Org1") rfl rfl,
    ((doPrintOrg_spec Example.gen [("Org2", true), ("Org1", false), ("Org1", true)] "Org1").2
      [("Org2", true)] ("Org1", false) [("Org1", true)] rfl (by decide) rfl).2.1
        "no MSP" rfl⟩

theorem SanityCheckConfig_spec_witness :
    ((SanityCheckConfig Example.lator ResponseWriter.fresh
          (Example.request [] [] [])).w.response.status = 400 ∧
        checkCalls (SanityCheckConfig Example.lator ResponseWriter.fresh
          (Example.request [] [] [])).calls = []) ∧
      (SanityCheckConfig Example.lator ResponseWriter.fresh
          (Example.request [] [] [0])).w.response.status = 500 ∧
      ((SanityCheckConfig Example.lator ResponseWriter.fresh
          (Example.request [] [] [7])).w.response.status = 200 ∧
        (SanityCheckConfig Example.lator ResponseWriter.fresh
          (Example.request [] [] [7])).w.response.body = utf8 "ok") :=
  ⟨(SanityCheckConfig_spec Example.lator (Example.request [] [] []) [] rfl).1
      "unexpected EOF" rfl,
    ((SanityCheckConfig_spec Example.lator (Example.request [] [] [0]) [0] rfl).2
      [0] rfl).2.1 "no channel group" rfl,
    ((SanityCheckConfig_spec Example.lator (Example.request [] [] [7]) [7] rfl).2
      [7] rfl).2.2 ["ok"] (utf8 "ok") rfl rfl⟩

theorem ComputeUpdateFromConfigs_stamps_witness :
    (ComputeUpdateFromConfigs Example.lator ResponseWriter.fresh
        (Example.request [("channel", "mychannel")]
          [("original", Example.upload "o.pb" [1]), ("updated", Example.upload "u.pb" [2])]
          [])).calls =
      [.Compute [1] [2], .Marshal { ChannelId := "mychannel", fields := [1, 2] }] :=
  (ComputeUpdateFromConfigs_stamps Example.lator
    (Example.request [("channel", "mychannel")]
      [("original", Example.upload "o.pb" [1]), ("updated", Example.upload "u.pb" [2])] [])
    [1] [2] { ChannelId := "differ", fields := [1, 2] } rfl rfl rfl).1

/-! ## Required fields of the artifact handlers -/

theorem response_missing (name : String) :
    ((ResponseWriter.fresh.WriteHeader 400).Fprint ("Missing field '" ++ name ++ "'\n")).response =
      missingField name := by
  simp [ResponseWriter.response, ResponseWriter.Fprint, ResponseWriter.Write,
    ResponseWriter.WriteHeader, ResponseWriter.fresh, missingField]

/-- C1, as amended.  In `OutputGenesisBlock` and `OutputChannelCreateTx` (fields
`profile`, `channelID`, `configtx` in this order) and in `PrintOrg` (fields
`printOrg`, `configtx`): when a text field is absent or empty, or the file
field `configtx` is absent or unreadable, and every field before it is present,
the response is status 400 with body `Missing field '<name>'` and a newline for
that field, whatever the other fields hold, the filesystem is untouched and
no collaborator is called. -/
theorem missing_field_rejected (env : GenEnv) (world : World) (r : Request) :
    (r.FormValue "profile" = "" →
        (OutputGenesisBlock env world ResponseWriter.fresh r).w.response = missingField "profile" ∧
        (OutputGenesisBlock env world ResponseWriter.fresh r).calls = [] ∧
        (OutputChannelCreateTx env world ResponseWriter.fresh r).w.response =
          missingField "profile" ∧
        (OutputChannelCreateTx env world ResponseWriter.fresh r).calls = []) ∧
      (r.FormValue "profile" ≠ "" → r.FormValue "channelID" = "" →
        (OutputGenesisBlock env world ResponseWriter.fresh r).w.response =
          missingField "channelID" ∧
        (OutputGenesisBlock env world ResponseWriter.fresh r).calls = [] ∧
        (OutputChannelCreateTx env world ResponseWriter.fresh r).w.response =
          missingField "channelID" ∧
        (OutputChannelCreateTx env world ResponseWriter.fresh r).calls = []) ∧
      (r.FormValue "profile" ≠ "" → r.FormValue "channelID" ≠ "" →
        (∃ err, fieldBytes "configtx" r = .error err) →
        (OutputGenesisBlock env world ResponseWriter.fresh r).w.response =
          missingField "configtx" ∧
        (OutputGenesisBlock env world ResponseWriter.fresh r).calls = [] ∧
        (OutputChannelCreateTx env world ResponseWriter.fresh r).w.response =
          missingField "configtx" ∧
        (OutputChannelCreateTx env world ResponseWriter.fresh r).calls = []) ∧
      (r.FormValue "printOrg" = "" →
        (PrintOrg env world ResponseWriter.fresh r).w.response = missingField "printOrg" ∧
        (PrintOrg env world ResponseWriter.fresh r).calls = []) ∧
      (r.FormValue "printOrg" ≠ "" → (∃ err, fieldBytes "configtx" r = .error err) →
        (PrintOrg env world ResponseWriter.fresh r).w.response = missingField "configtx" ∧
        (PrintOrg env world ResponseWriter.fresh r).calls = []) := by
  refine ⟨?_, ?_, ?_, ?_, ?_⟩
  · intro h
    have e1 : OutputGenesisBlock env world ResponseWriter.fresh r =
        ⟨(ResponseWriter.fresh.WriteHeader 400).Fprint "Missing field 'profile'\n", world, []⟩ := by
      simp only [OutputGenesisBlock, h, if_true]
    have e2 : OutputChannelCreateTx env world ResponseWriter.fresh r =
        ⟨(ResponseWriter.fresh.WriteHeader 400).Fprint "Missing field 'profile'\n", world, []⟩ := by
      simp only [OutputChannelCreateTx, h, if_true]
    rw [e1, e2]
    exact ⟨response_missing "profile", rfl, response_missing "profile", rfl⟩
  · intro h1 h2
    have e1 : OutputGenesisBlock env world ResponseWriter.fresh r =
        ⟨(ResponseWriter.fresh.WriteHeader 400).Fprint "Missing field 'channelID'\n", world, []⟩ := by
      simp only [OutputGenesisBlock, h1, h2, if_true, if_false]
    have e2 : OutputChannelCreateTx env world ResponseWriter.fresh r =
        ⟨(ResponseWriter.fresh.WriteHeader 400).Fprint "Missing field 'channelID'\n", world, []⟩ := by
      simp only [OutputChannelCreateTx, h1, h2, if_true, if_false]
    rw [e1, e2]
    exact ⟨response_missing "channelID", rfl, response_missing "channelID", rfl⟩
  · rintro h1 h2 ⟨err, h3⟩
    have e1 : OutputGenesisBlock env world ResponseWriter.fresh r =
        ⟨(ResponseWriter.fresh.WriteHeader 400).Fprint "Missing field 'configtx'\n", world, []⟩ := by
      simp only [OutputGenesisBlock, h1, h2, h3, if_false]
    have e2 : OutputChannelCreateTx env world ResponseWriter.fresh r =
        ⟨(ResponseWriter.fresh.WriteHeader 400).Fprint "Missing field 'configtx'\n", world, []⟩ := by
      simp only [OutputChannelCreateTx, h1, h2, h3, if_false]
    rw [e1, e2]
    exact ⟨response_missing "configtx", rfl, response_missing "configtx", rfl⟩
  · intro h
    have e1 : PrintOrg env world ResponseWriter.fresh r =
        ⟨(ResponseWriter.fresh.WriteHeader 400).Fprint "Missing field 'printOrg'\n", world, []⟩ := by
      simp only [PrintOrg, h, if_true]
    rw [e1]
    exact ⟨response_missing "printOrg", rfl⟩
  · rintro h1 ⟨err, h3⟩
    have e1 : PrintOrg env world ResponseWriter.fresh r =
        ⟨(ResponseWriter.fresh.WriteHeader 400).Fprint "Missing field 'configtx'\n", world, []⟩ := by
      simp only [PrintOrg, h1, h3, if_false]
    rw [e1]
    exact ⟨response_missing "configtx", rfl⟩

theorem missing_field_rejected_witness :
    ((OutputGenesisBlock Example.gen Example.world ResponseWriter.fresh
          (Example.request [("channelID", "mychannel")] [] [])).w.response =
        missingField "profile") ∧
      ((OutputChannelCreateTx Example.gen Example.world ResponseWriter.fresh
          (Example.request [("profile", "SampleProfile")] [] [])).w.response =
        missingField "channelID") ∧
      ((OutputGenesisBlock Example.gen Example.world ResponseWriter.fresh
          (Example.request [("profile", "SampleProfile"), ("channelID", "mychannel")] []
            [])).calls = []) ∧
      ((PrintOrg Example.gen Example.world ResponseWriter.fresh
          (Example.request [] [] [])).w.response = missingField "printOrg") ∧
      ((PrintOrg Example.gen Example.world ResponseWriter.fresh
          (Example.request [("printOrg", "Org1")] [] [])).w.response = missingField "configtx") :=
  ⟨((missing_field_rejected Example.gen Example.world
      (Example.request [("channelID", "mychannel")] [] [])).1 (by decide)).1,
    ((missing_field_rejected Example.gen Example.world
      (Example.request [("profile", "SampleProfile")] [] [])).2.1 (by decide) (by decide)).2.2.1,
    ((missing_field_rejected Example.gen Example.world
      (Example.request [("profile", "SampleProfile"), ("channelID", "mychannel")] [] [])).2.2.1
        (by decide) (by decide) ⟨"http: no such file", rfl⟩).2.1,
    ((missing_field_rejected Example.gen Example.world
      (Example.request [] [] [])).2.2.2.1 (by decide)).1,
    ((missing_field_rejected Example.gen Example.world
      (Example.request [("printOrg", "Org1")] [] [])).2.2.2.2 (by decide)
        ⟨"http: no such file", rfl⟩).1⟩

/-- C1 as stated fails: with `profile` and `channelID` given and `configtx`
uploaded as a file of zero bytes, the required field `configtx` is empty, yet
`OutputGenesisBlock` loads the profile, runs the generator and answers 200. -/
theorem empty_configtx_file_accepted :
    (OutputGenesisBlock Example.gen Example.world ResponseWriter.fresh
        (Example.request [("profile", "SampleProfile"), ("channelID", "mychannel")]
          [("configtx", Example.upload "configtx.yaml" [])] [])).w.response.status = 200 ∧
      (OutputGenesisBlock Example.gen Example.world ResponseWriter.fresh
        (Example.request [("profile", "SampleProfile"), ("channelID", "mychannel")]
          [("configtx", Example.upload "configtx.yaml" [])] [])).calls =
        [.InitFactories, .LoadFromBytes "SampleProfile" [] ".",
          .GenesisBlockForChannel "mychannel", .Marshal] := by
  decide

/-! ## Success responses of the artifact handlers -/

theorem response_late_header (code : Nat) (key value : String) (b : Bytes) :
    (((ResponseWriter.fresh.WriteHeader code).SetHeader key value).Write b).response =
      { status := code, header := [], body := b } := by
  simp [ResponseWriter.response, ResponseWriter.Write, ResponseWriter.WriteHeader,
    ResponseWriter.SetHeader, ResponseWriter.fresh]

theorem delivered_late_header (DetectContentType : Bytes → String) (key value : String)
    (b : Bytes) :
    (((ResponseWriter.fresh.WriteHeader 200).SetHeader key value).Write b).delivered
        DetectContentType =
      { status := 200,
        header := if b = [] then [] else [("Content-Type", DetectContentType (b.take 512))],
        body := b } := by
  unfold ResponseWriter.delivered
  rw [response_late_header]
  by_cases hb : b = []
  · simp [hb]
  · simp [hb, Response.get, bodyAllowedForStatus]

/-- C6.  For a request with `profile`, `channelID` and a readable `configtx` for
which `doOutputBlock` (for `OutputChannelCreateTx`: `doOutputChannelCreateTx`)
returns the artifact bytes and no error, whether or not it was asked to write
them to a file: the client receives status 200 and the artifact bytes as
body.  The `Content-Type` the handler sets after `WriteHeader` is not sent;
the one the client receives is detected by the server from the body, and it
is `application/octet-stream` for a non-empty artifact that
`http.DetectContentType` classifies so. -/
theorem artifact_response (env : GenEnv) (world : World) (r : Request)
    (DetectContentType : Bytes → String) (configtx : Bytes)
    (hprofile : r.FormValue "profile" ≠ "") (hchannel : r.FormValue "channelID" ≠ "")
    (hconfigtx : fieldBytes "configtx" r = .ok configtx) :
    (∀ bytes world1 calls,
        doOutputBlock env world
            (env.LoadFromBytes (r.FormValue "profile") configtx
              (if r.FormValue "configPath" = "" then "." else r.FormValue "configPath"))
            (r.FormValue "channelID") (r.FormValue "outputBlock") =
          (bytes, none, world1, calls) →
        ((OutputGenesisBlock env world ResponseWriter.fresh r).w.delivered
            DetectContentType).status = 200 ∧
          ((OutputGenesisBlock env world ResponseWriter.fresh r).w.delivered
            DetectContentType).body = bytes ∧
          ((OutputGenesisBlock env world ResponseWriter.fresh r).w.delivered
            DetectContentType).get "Content-Type" =
            (if bytes = [] then none else some (DetectContentType (bytes.take 512))) ∧
          (bytes ≠ [] → DetectContentType (bytes.take 512) = "application/octet-stream" →
            ((OutputGenesisBlock env world ResponseWriter.fresh r).w.delivered
              DetectContentType).get "Content-Type" = some "application/octet-stream")) ∧
      (∀ bytes world1 calls,
        doOutputChannelCreateTx env world
            (env.LoadFromBytes (r.FormValue "profile") configtx
              (if r.FormValue "configPath" = "" then "." else r.FormValue "configPath"))
            (r.FormValue "channelID") (r.FormValue "outputCreateChannelTx") =
          (bytes, none, world1, calls) →
        ((OutputChannelCreateTx env world ResponseWriter.fresh r).w.delivered
            DetectContentType).status = 200 ∧
          ((OutputChannelCreateTx env world ResponseWriter.fresh r).w.delivered
            DetectContentType).body = bytes ∧
          ((OutputChannelCreateTx env world ResponseWriter.fresh r).w.delivered
            DetectContentType).get "Content-Type" =
            (if bytes = [] then none else some (DetectContentType (bytes.take 512))) ∧
          (bytes ≠ [] → DetectContentType (bytes.take 512) = "application/octet-stream" →
            ((OutputChannelCreateTx env world ResponseWriter.fresh r).w.delivered
              DetectContentType).get "Content-Type" = some "application/octet-stream")) := by
  constructor
  · intro bytes world1 calls hout
    have e : (OutputGenesisBlock env world ResponseWriter.fresh r).w =
        ((ResponseWriter.fresh.WriteHeader 200).SetHeader "Content-Type"
          "application/octet-stream").Write bytes := by
      simp only [OutputGenesisBlock, hprofile, hchannel, hconfigtx, if_false, hout]
    rw [e, delivered_late_header]
    by_cases hb : bytes = []
    · simp [hb, Response.get]
    · refine ⟨rfl, rfl, by simp [hb, Response.get], ?_⟩
      intro _ hd
      simp [hb, Response.get, hd]
  · intro bytes world1 calls hout
    have e : (OutputChannelCreateTx env world ResponseWriter.fresh r).w =
        ((ResponseWriter.fresh.WriteHeader 200).SetHeader "Content-Type"
          "application/octet-stream").Write bytes := by
      simp only [OutputChannelCreateTx, hprofile, hchannel, hconfigtx, if_false, hout]
    rw [e, delivered_late_header]
    by_cases hb : bytes = []
    · simp [hb, Response.get]
    · refine ⟨rfl, rfl, by simp [hb, Response.get], ?_⟩
      intro _ hd
      simp [hb, Response.get, hd]

theorem artifact_response_witness :
    ((OutputGenesisBlock Example.genProto Example.world ResponseWriter.fresh
        (Example.request [("profile", "SampleProfile"), ("channelID", "mychannel")]
          [("configtx", Example.upload "configtx.yaml" [1, 2, 3])] [])).w.delivered
        Example.detect).status = 200 ∧
      ((OutputGenesisBlock Example.genProto Example.world ResponseWriter.fresh
        (Example.request [("profile", "SampleProfile"), ("channelID", "mychannel")]
          [("configtx", Example.upload "configtx.yaml" [1, 2, 3])] [])).w.delivered
        Example.detect).body = 0x0A :: 0x22 :: 0x1A :: utf8 "SampleProfilemychannel" ∧
      ((OutputGenesisBlock Example.genProto Example.world ResponseWriter.fresh
        (Example.request [("profile", "SampleProfile"), ("channelID", "mychannel")]
          [("configtx", Example.upload "configtx.yaml" [1, 2, 3])] [])).w.delivered
        Example.detect).get "Content-Type" = some "application/octet-stream" :=
  have h := (artifact_response Example.genProto Example.world
    (Example.request [("profile", "SampleProfile"), ("channelID", "mychannel")]
      [("configtx", Example.upload "configtx.yaml" [1, 2, 3])] [])
    Example.detect [1, 2, 3] (by decide) (by decide) rfl).1
      (0x0A :: 0x22 :: 0x1A :: utf8 "SampleProfilemychannel") Example.world
      [.GenesisBlockForChannel "mychannel", .Marshal] rfl
  ⟨h.1, h.2.1, h.2.2.2 (by decide) (by decide)⟩

/-! ## Status of a failed upload -/

/-- C5, evaluated.  An archive whose only entry is the file `a/b.txt` is uploaded
to `/data/msp/`: extraction fails because `/data/msp/a` does not exist, the
handler calls `WriteHeader(400)` after it has already written the echo of the
upload header, and the response has status 200; its body is the echo followed
by the extraction error. -/
theorem upload_failure_after_echo :
    (UploadMspFiles (fun _ => .ok [⟨"a/b.txt", false, 0o644, none, [1, 2], none⟩])
        Example.world ResponseWriter.fresh
        (Example.request [("destination", "/data/msp/")]
          [("msp", Example.upload "msp.zip" [0x50, 0x4B, 0x03, 0x04, 0])] [])).w.response =
      { status := 200, header := [],
        body := utf8 "map[]" ++
          utf8 "Unzip file err: %sopen /data/msp/a/b.txt: no such file or directory" } := by
  decide

/-! ## Effects of the filesystem calls -/

theorem statKey_some (fs : FS) (r : Bool) (c : List Char) (rest : List (List Char)) (n : Node)
    (h : statKey fs r c rest = some n) : fs.get ⟨r, c :: rest⟩ = some n := by
  unfold statKey at h
  split at h
  · exact h
  · simp at h

/-- `os.Mkdir` either fails and changes nothing, or makes the directory in a
searchable, writable parent. -/
theorem mkdirKey_spec (perm umask : Nat) (r : Bool) (c : List Char) (rest : List (List Char))
    (fs : FS) :
    ((mkdirKey perm umask r c rest fs).1 = fs ∧ ∃ e, (mkdirKey perm umask r c rest fs).2 = some e) ∨
      (fs.searchable r rest = true ∧ fs.get ⟨r, c :: rest⟩ = none ∧
        (∃ m, fs.get ⟨r, rest⟩ = some (Node.dir m) ∧ ownerWrite m = true) ∧
        mkdirKey perm umask r c rest fs =
          (fs.set ⟨r, c :: rest⟩ (Node.dir (createMode perm umask)), none)) := by
  unfold mkdirKey
  by_cases hs : fs.searchable r rest = true
  · cases hg : fs.get ⟨r, c :: rest⟩ with
    | some n => left; simp [hs]
    | none =>
      cases hp : fs.get ⟨r, rest⟩ with
      | none => left; simp [hs]
      | some n =>
        cases n with
        | file m d => left; simp [hs]
        | dir m =>
          by_cases hw : ownerWrite m = true
          · right; simp [hs, hw]
          · left; simp [hs, hw]
  · left; simp [hs]

theorem mkdirAllKey_cons_fst (perm umask : Nat) (r : Bool) (c : List Char)
    (rest : List (List Char)) (fs : FS) :
    (mkdirAllKey perm umask r (c :: rest) fs).1 =
      match statKey fs r c rest with
      | some _ => fs
      | none =>
        match (if rest = [] then (fs, none) else mkdirAllKey perm umask r rest fs) with
        | (fs1, some _) => fs1
        | (fs1, none) => (mkdirKey perm umask r c rest fs1).1 := by
  rw [mkdirAllKey]
  cases hst : statKey fs r c rest with
  | some n => cases n <;> rfl
  | none =>
    simp only
    rcases hsub : (if rest = [] then (fs, none) else mkdirAllKey perm umask r rest fs) with
      ⟨fs1, _ | e⟩
    · simp only
      rcases hmk : mkdirKey perm umask r c rest fs1 with ⟨fs2, _ | e⟩
      · rfl
      · simp only
        split <;> rfl
    · rfl

/-- When a directory on the way may not be searched, `MkdirAll` makes nothing. -/
theorem mkdirAllKey_unsearchable (perm umask : Nat) (r : Bool) :
    ∀ (stk : List (List Char)) (fs : FS), fs.searchable r stk = false →
      (mkdirAllKey perm umask r stk fs).1 = fs := by
  intro stk
  induction stk with
  | nil =>
    intro fs _
    rw [mkdirAllKey]
    split <;> rfl
  | cons c rest ih =>
    intro fs hs
    rw [mkdirAllKey_cons_fst]
    by_cases hr : fs.searchable r rest = true
    · have hn : Node.searchable (fs.get ⟨r, c :: rest⟩) = false := by
        simpa [FS.searchable, hr] using hs
      cases hg : fs.get ⟨r, c :: rest⟩ with
      | none => rw [hg] at hn; simp [Node.searchable] at hn
      | some n => simp [statKey, hr, hg]
    · have hr' : fs.searchable r rest = false := by simpa using hr
      have hsub : (if rest = [] then (fs, none) else mkdirAllKey perm umask r rest fs).1 = fs := by
        by_cases he : rest = []
        · simp [he]
        · simp only [he, if_false]; exact ih fs hr'
      simp only [statKey, hr', Bool.false_eq_true, if_false]
      rcases hsub' : (if rest = [] then (fs, none) else mkdirAllKey perm umask r rest fs) with
        ⟨fs1, _ | e⟩
      · rw [hsub'] at hsub
        simp only at hsub ⊢
        subst hsub
        simp [mkdirKey, hr']
      · rw [hsub'] at hsub
        exact hsub

/-- What `MkdirAll` changes: a position is as before, or it named nothing, lies
on the way, has nothing listed below it on the way, and is now a directory
with the created mode. -/
theorem mkdirAllKey_changes (perm umask : Nat) (r : Bool) :
    ∀ (stk : List (List Char)) (fs : FS) (k : Key),
      (mkdirAllKey perm umask r stk fs).1.get k = fs.get k ∨
        (fs.get k = none ∧
          (mkdirAllKey perm umask r stk fs).1.get k = some (Node.dir (createMode perm umask)) ∧
          ∃ s, s <:+ stk ∧ k = ⟨r, s⟩ ∧ ∀ u, s <:+ u → u <:+ stk → fs.get ⟨r, u⟩ = none) := by
  intro stk
  induction stk with
  | nil =>
    intro fs k
    left
    rw [mkdirAllKey]
    split <;> rfl
  | cons c rest ih =>
    intro fs k
    by_cases hr : fs.searchable r rest = true
    · cases hg : fs.get ⟨r, c :: rest⟩ with
      | some n =>
        left
        rw [mkdirAllKey_cons_fst]
        simp [statKey, hr, hg]
      | none =>
        have hsub : ∀ k, (if rest = [] then (fs, none)
              else mkdirAllKey perm umask r rest fs).1.get k = fs.get k ∨
            (fs.get k = none ∧
              (if rest = [] then (fs, none) else mkdirAllKey perm umask r rest fs).1.get k =
                some (Node.dir (createMode perm umask)) ∧
              ∃ s, s <:+ c :: rest ∧ k = ⟨r, s⟩ ∧
                ∀ u, s <:+ u → u <:+ c :: rest → fs.get ⟨r, u⟩ = none) := by
          intro k
          by_cases he : rest = []
          · left; simp [he]
          · simp only [he, if_false]
            rcases ih fs k with h | ⟨h1, h2, s, hs1, hs2, hs3⟩
            · exact Or.inl h
            · refine Or.inr ⟨h1, h2, s, hs1.trans (List.suffix_cons c rest), hs2, ?_⟩
              intro u hu1 hu2
              rcases List.suffix_cons_iff.1 hu2 with hu | hu
              · rw [hu]; exact hg
              · exact hs3 u hu1 hu
        rw [mkdirAllKey_cons_fst]
        simp only [statKey, hr, if_true, hg]
        rcases hsub' : (if rest = [] then (fs, none) else mkdirAllKey perm umask r rest fs) with
          ⟨fs1, _ | e⟩
        · simp only
          rw [hsub'] at hsub
          simp only at hsub
          rcases mkdirKey_spec perm umask r c rest fs1 with ⟨h1, _⟩ | ⟨_, hn1, _, hmk⟩
          · rw [h1]; exact hsub k
          · rw [hmk]
            simp only
            by_cases hk : k = ⟨r, c :: rest⟩
            · subst hk
              refine Or.inr ⟨hg, FS.get_set_self _ _ _, c :: rest, List.suffix_refl _, rfl, ?_⟩
              intro u hu1 hu2
              have : u = c :: rest := List.IsSuffix.eq_of_length_le hu2 hu1.length_le
              rw [this]; exact hg
            · rw [FS.get_set_ne _ _ _ _ hk]
              exact hsub k
        · simp only
          rw [hsub'] at hsub
          exact hsub k
    · left
      have hr' : fs.searchable r rest = false := by simpa using hr
      have hs : fs.searchable r (c :: rest) = false := by simp [FS.searchable, hr']
      rw [mkdirAllKey_unsearchable perm umask r (c :: rest) fs hs]

theorem mkdirAllKey_preserves (perm umask : Nat) (r : Bool) (stk : List (List Char)) (fs : FS)
    (k : Key) (n : Node) (hk : fs.get k = some n) :
    (mkdirAllKey perm umask r stk fs).1.get k = some n := by
  rcases mkdirAllKey_changes perm umask r stk fs k with h | ⟨h, _⟩
  · rw [h]; exact hk
  · rw [h] at hk; simp at hk

/-- `MkdirAll` below an existing directory changes nothing outside it. -/
theorem mkdirAllKey_frame (perm umask : Nat) (r : Bool) (tstk : List (List Char))
    (stk : List (List Char)) (fs : FS) (hsuf : tstk <:+ stk) (hdir : fs.dirAt ⟨r, tstk⟩)
    (k : Key) (hk : ¬ k.within ⟨r, tstk⟩) :
    (mkdirAllKey perm umask r stk fs).1.get k = fs.get k := by
  rcases mkdirAllKey_changes perm umask r stk fs k with h | ⟨_, _, s, hs1, hs2, hs3⟩
  · exact h
  · exfalso
    rcases List.suffix_or_suffix_of_suffix hsuf hs1 with h | h
    · exact hk (hs2 ▸ ⟨rfl, h⟩)
    · obtain ⟨m, hm⟩ := hdir
      rw [hs3 tstk h hsuf] at hm
      simp at hm

theorem MkdirAll_fs (w : World) (path : String) (perm : Nat) :
    (w.MkdirAll path perm).1.fs = w.fs ∨
      (w.MkdirAll path perm).1.fs =
        (mkdirAllKey perm w.umask (resolve path.data).rooted (resolve path.data).stack w.fs).1 := by
  unfold World.MkdirAll
  split
  · exact Or.inl rfl
  · split
    · exact Or.inl rfl
    · exact Or.inr rfl

theorem MkdirAll_fault (w : World) (path : String) (perm : Nat) :
    (w.MkdirAll path perm).1.fault = w.fault := by
  unfold World.MkdirAll
  split
  · rfl
  · split <;> rfl

theorem MkdirAll_umask (w : World) (path : String) (perm : Nat) :
    (w.MkdirAll path perm).1.umask = w.umask := by
  unfold World.MkdirAll
  split
  · rfl
  · split <;> rfl

theorem MkdirAll_preserves (w : World) (path : String) (perm : Nat) (k : Key) (n : Node)
    (hk : w.fs.get k = some n) : (w.MkdirAll path perm).1.fs.get k = some n := by
  rcases MkdirAll_fs w path perm with h | h
  · rw [h]; exact hk
  · rw [h]; exact mkdirAllKey_preserves _ _ _ _ _ k n hk

theorem MkdirAll_frame (w : World) (path : String) (perm : Nat) (t : Key)
    (hin : (resolve path.data).within t) (hdir : w.fs.dirAt t) (k : Key) (hk : ¬ k.within t) :
    (w.MkdirAll path perm).1.fs.get k = w.fs.get k := by
  rcases MkdirAll_fs w path perm with h | h
  · rw [h]
  · rw [h]
    obtain ⟨hr, hsuf⟩ := hin
    have hdir' : w.fs.dirAt ⟨(resolve path.data).rooted, t.stack⟩ := by
      rw [hr]; exact hdir
    have hk' : ¬ k.within ⟨(resolve path.data).rooted, t.stack⟩ := by
      rw [hr]; exact hk
    exact mkdirAllKey_frame perm _ _ t.stack _ _ hsuf hdir' k hk'

/-- What a successful `OpenFile` leaves behind: the same faults, a regular file at
the path, every other path untouched; the path was not a directory. -/
theorem OpenFile_ok (w w' : World) (path : String) (trunc : Bool) (perm : Nat)
    (h : w.OpenFile path trunc perm = .ok w') :
    w'.fault = w.fault ∧ path ≠ "" ∧ w'.fs.fileAt (resolve path.data) ∧
      ¬ w.fs.dirAt (resolve path.data) ∧
      (∀ k, k ≠ resolve path.data → w'.fs.get k = w.fs.get k) := by
  unfold World.OpenFile at h
  split at h
  · simp at h
  · split at h
    · simp at h
    · rename_i hp
      simp only at h
      split at h
      · split at h
        · simp at h
        · rename_i m d hget
          have hnd : ¬ w.fs.dirAt (resolve path.data) := by
            rintro ⟨m', hm'⟩; rw [hget] at hm'; simp at hm'
          split at h
          · split at h
            · simp only [Except.ok.injEq] at h
              subst h
              exact ⟨rfl, hp, ⟨m, [], FS.get_set_self _ _ _⟩, hnd,
                fun k hk => FS.get_set_ne _ _ _ _ hk⟩
            · simp only [Except.ok.injEq] at h
              subst h
              exact ⟨rfl, hp, ⟨m, d, hget⟩, hnd, fun _ _ => rfl⟩
          · simp at h
        · rename_i hget
          have hnd : ¬ w.fs.dirAt (resolve path.data) := by
            rintro ⟨m', hm'⟩; rw [hget] at hm'; simp at hm'
          split at h
          · simp at h
          · split at h
            · split at h
              · simp only [Except.ok.injEq] at h
                subst h
                exact ⟨rfl, hp, ⟨_, [], FS.get_set_self _ _ _⟩, hnd,
                  fun k hk => FS.get_set_ne _ _ _ _ hk⟩
              · simp at h
            · simp at h
            · simp at h
      · simp at h

theorem OpenFile_umask (w w' : World) (path : String) (trunc : Bool) (perm : Nat)
    (h : w.OpenFile path trunc perm = .ok w') : w'.umask = w.umask := by
  unfold World.OpenFile at h
  split at h
  · simp at h
  · split at h
    · simp at h
    · simp only at h
      split at h
      · split at h
        · simp at h
        · split at h
          · split at h <;> (simp only [Except.ok.injEq] at h; subst h; rfl)
          · simp at h
        · split at h
          · simp at h
          · split at h
            · split at h
              · simp only [Except.ok.injEq] at h; subst h; rfl
              · simp at h
            · simp at h
            · simp at h
      · simp at h

theorem suffix_cons_ne {α : Type} (t rest : List α) (c : α) (h : t <:+ c :: rest)
    (hne : t ≠ c :: rest) : t <:+ rest := by
  rcases List.suffix_cons_iff.1 h with h | h
  · exact absurd h hne
  · exact h

theorem Copy_fault (w : World) (path : String) (data : Bytes) (e : Option String) :
    (w.Copy path data e).1.fault = w.fault := by
  unfold World.Copy
  split
  · rfl
  · split
    · rfl
    · split <;> rfl

theorem Copy_other (w : World) (path : String) (data : Bytes) (e : Option String) (k : Key)
    (hk : k ≠ resolve path.data) : (w.Copy path data e).1.fs.get k = w.fs.get k := by
  unfold World.Copy
  split
  · rfl
  · split
    · rfl
    · split
      · exact FS.get_set_ne _ _ _ _ hk
      · rfl

theorem Copy_fileAt (w : World) (path : String) (data : Bytes) (e : Option String) (k : Key)
    (hk : w.fs.fileAt k) : (w.Copy path data e).1.fs.fileAt k := by
  by_cases hkp : k = resolve path.data
  · subst hkp
    obtain ⟨m, d, hget⟩ := hk
    unfold World.Copy
    split
    · exact ⟨m, d, hget⟩
    · split
      · exact ⟨m, d, hget⟩
      · simp only [hget]
        exact ⟨m, data ++ d.drop data.length, by simp [FS.get_set_self, writeAt0]⟩
  · obtain ⟨m, d, hget⟩ := hk
    exact ⟨m, d, by rw [Copy_other w path data e k hkp]; exact hget⟩

/-- Copying without fault onto a file that was just emptied leaves exactly the
copied bytes, and reports the error of the source. -/
theorem Copy_empty (w : World) (path : String) (data : Bytes) (e : Option String) (m : Nat)
    (hf : w.fault (Op.write path) = none) (hget : w.fs.get (resolve path.data) = some (Node.file m [])) :
    (w.Copy path data e).1.fs.get (resolve path.data) = some (Node.file m data) ∧
      (w.Copy path data e).2 = e := by
  unfold World.Copy
  by_cases hd : data = []
  · simp [hd, hget]
  · simp [hd, hf, hget, FS.get_set_self, writeAt0]

theorem Remove_ok (w : World) (path : String) (hp : path ≠ "")
    (h : (w.Remove path).2 = none) : (w.Remove path).1.lookup path = none := by
  unfold World.Remove at h ⊢
  cases hf : w.fault (Op.remove path) with
  | some e => simp [hf] at h
  | none =>
    simp only [hf] at h ⊢
    cases hl : w.lookup path with
    | none => simp [hl] at h
    | some n =>
      simp only [hl] at h ⊢
      by_cases hw : w.fs.writableDir (resolve path.data).rooted (resolve path.data).stack.tail = true
      · simp only [hw, if_true] at h ⊢
        cases n with
        | file m d => simp [World.lookup, hp, FS.get_del]
        | dir m =>
          by_cases hc : w.fs.hasChild (resolve path.data) = true
          · simp [hc] at h
          · simp [hc, World.lookup, hp, FS.get_del]
      · simp [hw] at h

/-- A failed `Remove` leaves the filesystem as it was. -/
theorem Remove_err (w : World) (path : String) (e : String)
    (h : (w.Remove path).2 = some e) : (w.Remove path).1 = w := by
  unfold World.Remove at h ⊢
  cases hf : w.fault (Op.remove path) with
  | some e => rfl
  | none =>
    simp only [hf] at h ⊢
    cases hl : w.lookup path with
    | none => rfl
    | some n =>
      simp only [hl] at h ⊢
      by_cases hw : w.fs.writableDir (resolve path.data).rooted (resolve path.data).stack.tail = true
      · simp only [hw, if_true] at h ⊢
        cases n with
        | file m d => simp at h
        | dir m =>
          by_cases hc : w.fs.hasChild (resolve path.data) = true
          · simp [hc]
          · simp [hc] at h
      · simp [hw]

/-! ## Where `unzip` writes -/

theorem within_Join (target name : String) (ht : target ≠ "") (hn : noDotDot name) :
    (resolve (Join target name).data).within (resolve target.data) := by
  rw [resolve_Join_noDotDot target name ht hn]
  exact ⟨rfl, List.suffix_append _ _⟩

theorem unzipFiles_frame (target : String) (ht : target ≠ "") :
    ∀ (files : List ZipFile) (w : World), (∀ f ∈ files, noDotDot f.Name) →
      w.fs.dirAt (resolve target.data) →
      ∀ k : Key, ¬ k.within (resolve target.data) →
        (unzipFiles target w files).1.fs.get k = w.fs.get k := by
  intro files
  induction files with
  | nil => intro w _ _ k _; rfl
  | cons f rest ih =>
    intro w hn hdir k hk
    have hin := within_Join target f.Name ht (hn f (List.mem_cons_self _ _))
    have hrest : ∀ g ∈ rest, noDotDot g.Name := fun g hg => hn g (List.mem_cons_of_mem _ hg)
    have hkp : k ≠ resolve (Join target f.Name).data := by
      intro e; exact hk (e ▸ hin)
    simp only [unzipFiles]
    split
    · have hdir1 : (w.MkdirAll (Join target f.Name) f.Mode).1.fs.dirAt (resolve target.data) := by
        obtain ⟨m, hm⟩ := hdir
        exact ⟨m, MkdirAll_preserves _ _ _ _ _ hm⟩
      rw [ih _ hrest hdir1 k hk]
      exact MkdirAll_frame w _ _ _ hin hdir k hk
    · split
      · rfl
      · split
        · rfl
        · rename_i w1 hopen
          obtain ⟨_, _, _, hnd, hother⟩ := OpenFile_ok _ _ _ _ _ hopen
          have htne : resolve target.data ≠ resolve (Join target f.Name).data := by
            intro e; exact hnd (e ▸ hdir)
          have e1 : ∀ k', k' ≠ resolve (Join target f.Name).data →
              (w1.Copy (Join target f.Name) f.data f.copyErr).1.fs.get k' = w.fs.get k' := by
            intro k' hk'
            rw [Copy_other _ _ _ _ _ hk', hother k' hk']
          split
          · rename_i w2 e hcopy
            have : w2 = (w1.Copy (Join target f.Name) f.data f.copyErr).1 := by rw [hcopy]
            rw [this]; exact e1 k hkp
          · rename_i w2 hcopy
            have h2 : w2 = (w1.Copy (Join target f.Name) f.data f.copyErr).1 := by rw [hcopy]
            have hdir2 : w2.fs.dirAt (resolve target.data) := by
              obtain ⟨m, hm⟩ := hdir
              exact ⟨m, by rw [h2, e1 _ htne]; exact hm⟩
            rw [ih w2 hrest hdir2 k hk, h2]
            exact e1 k hkp

/-- C2, as amended.  For a non-empty destination and an archive whose entry names
have no parent-directory element: the path `unzip` computes for every entry
resolves inside the destination, and when the destination is an existing
directory, nothing outside it is created or changed by `unzip`. -/
theorem unzip_stays_inside (parse : Bytes → Except String (List ZipFile)) (w : World)
    (archive target : String) (files : List ZipFile) (ht : target ≠ "")
    (hparse : zipOpenReader parse w archive = .ok files)
    (hn : ∀ f ∈ files, noDotDot f.Name) :
    (∀ f ∈ files, resolvesInside target (Join target f.Name)) ∧
      (w.fs.dirAt (resolve target.data) →
        ∀ k : Key, ¬ k.within (resolve target.data) →
          (unzip parse w archive target).1.fs.get k = w.fs.get k) := by
  refine ⟨fun f hf => within_Join target f.Name ht (hn f hf), ?_⟩
  intro hdir k hk
  simp only [unzip, hparse]
  exact unzipFiles_frame target ht files w hn hdir k hk

/-- C2 as stated fails: an archive with the file entry `../x`, extracted into
`/data/msp`, writes the file `/data/x`, which is not inside `/data/msp`. -/
theorem unzip_escapes_destination :
    ¬ resolvesInside "/data/msp" (Join "/data/msp" "../x") ∧
      (unzip (fun _ => .ok [⟨"../x", false, 0o644, none, [1, 2], none⟩])
          { fs := (⟨true, ["a.zip".data]⟩, Node.file 0o644 [0x50, 0x4B, 0x03, 0x04]) ::
              Example.world.fs,
            fault := fun _ => none }
          "/a.zip" "/data/msp").1.lookup "/data/x" = some (Node.file 0o644 [1, 2]) := by
  decide

theorem unzip_stays_inside_witness :
    (∀ f ∈ [(⟨"a/", true, 0o755, none, [], none⟩ : ZipFile),
          ⟨"a/b.txt", false, 0o644, none, [1, 2], none⟩],
        resolvesInside "/data/msp" (Join "/data/msp" f.Name)) ∧
      (FS.dirAt ((⟨true, ["a.zip".data]⟩, Node.file 0o644 [0x50, 0x4B, 0x03, 0x04]) ::
            Example.world.fs) (resolve "/data/msp".data) →
        ∀ k : Key, ¬ k.within (resolve "/data/msp".data) →
          (unzip (fun _ => .ok [⟨"a/", true, 0o755, none, [], none⟩,
                ⟨"a/b.txt", false, 0o644, none, [1, 2], none⟩])
              { fs := (⟨true, ["a.zip".data]⟩, Node.file 0o644 [0x50, 0x4B, 0x03, 0x04]) ::
                  Example.world.fs,
                fault := fun _ => none }
              "/a.zip" "/data/msp").1.fs.get k =
            FS.get ((⟨true, ["a.zip".data]⟩, Node.file 0o644 [0x50, 0x4B, 0x03, 0x04]) ::
              Example.world.fs) k) :=
  unzip_stays_inside (fun _ => .ok [⟨"a/", true, 0o755, none, [], none⟩,
      ⟨"a/b.txt", false, 0o644, none, [1, 2], none⟩])
    { fs := (⟨true, ["a.zip".data]⟩, Node.file 0o644 [0x50, 0x4B, 0x03, 0x04]) :: Example.world.fs,
      fault := fun _ => none }
    "/a.zip" "/data/msp" _ (by decide) rfl (by decide)

/-! ## The uploaded file after the handler returns -/

theorem unzipFiles_fileAt (target : String) (k : Key) :
    ∀ (files : List ZipFile) (w : World), w.fs.fileAt k →
      (unzipFiles target w files).1.fs.fileAt k := by
  intro files
  induction files with
  | nil => intro w h; exact h
  | cons f rest ih =>
    intro w h
    simp only [unzipFiles]
    split
    · apply ih
      obtain ⟨m, d, hm⟩ := h
      exact ⟨m, d, MkdirAll_preserves _ _ _ _ _ hm⟩
    · split
      · exact h
      · split
        · exact h
        · rename_i w1 hopen
          obtain ⟨_, _, hfile, _, hother⟩ := OpenFile_ok _ _ _ _ _ hopen
          have h1 : w1.fs.fileAt k := by
            by_cases hk : k = resolve (Join target f.Name).data
            · rw [hk]; exact hfile
            · obtain ⟨m, d, hm⟩ := h
              exact ⟨m, d, by rw [hother k hk]; exact hm⟩
          have h2 := Copy_fileAt w1 (Join target f.Name) f.data f.copyErr k h1
          split
          · rename_i w2 e hcopy
            rw [hcopy] at h2; exact h2
          · rename_i w2 hcopy
            rw [hcopy] at h2; exact ih w2 h2

theorem unzip_fileAt (parse : Bytes → Except String (List ZipFile)) (w : World)
    (archive target : String) (k : Key) (h : w.fs.fileAt k) :
    (unzip parse w archive target).1.fs.fileAt k := by
  unfold unzip
  split
  · exact h
  · exact unzipFiles_fileAt target k _ w h

theorem lookup_fileAt (w : World) (path : String) (hp : path ≠ "")
    (h : w.fs.fileAt (resolve path.data)) : ∃ m d, w.lookup path = some (Node.file m d) := by
  obtain ⟨m, d, hm⟩ := h
  exact ⟨m, d, by simp [World.lookup, hp, hm]⟩

/-- C10.  For a request that gets as far as opening `destination + filename` for
writing, with `world3` the filesystem after the copy and `world4` the one
after `unzip`.  When the copy succeeds, the file is detected as an archive and
the extraction succeeds, the filesystem the handler leaves is the one
`os.Remove` of the file leaves: if the removal succeeds the path names nothing
and the body is the echo of the upload header alone, and if it fails with
`err` the file is still there and the body ends with `Remove file err: %s` and
`err`.  In every other case the handler leaves the filesystem of the copy, or
that of the failed extraction, without any removal, and the path still names a
regular file. -/
theorem upload_archive_invariant (parse : Bytes → Except String (List ZipFile))
    (world world1 world2 world3 world4 : World) (r : Request) (file : Upload)
    (copyErr unzipErr : Option String)
    (hdest : r.FormValue "destination" ≠ "")
    (hdir : createDir world (r.FormValue "destination") = (world1, none))
    (hfile : r.FormFile "msp" = .ok file)
    (hopen : world1.OpenFile (r.FormValue "destination" ++ file.handler.Filename) false 0o666 =
      .ok world2)
    (hcopy : world2.Copy (r.FormValue "destination" ++ file.handler.Filename) file.data
      file.readErr = (world3, copyErr))
    (hunzip : unzip parse world3 (r.FormValue "destination" ++ file.handler.Filename)
      (r.FormValue "destination") = (world4, unzipErr)) :
    ((copyErr = none ∧
        isZip world3 (r.FormValue "destination" ++ file.handler.Filename) = true ∧
        unzipErr = none) →
      (UploadMspFiles parse world ResponseWriter.fresh r).world =
          (world4.Remove (r.FormValue "destination" ++ file.handler.Filename)).1 ∧
        ((world4.Remove (r.FormValue "destination" ++ file.handler.Filename)).2 = none →
          (UploadMspFiles parse world ResponseWriter.fresh r).world.lookup
              (r.FormValue "destination" ++ file.handler.Filename) = none ∧
            (UploadMspFiles parse world ResponseWriter.fresh r).w.response.body =
              utf8 file.handler.Header) ∧
        (∀ err,
          (world4.Remove (r.FormValue "destination" ++ file.handler.Filename)).2 = some err →
          (∃ m d, (UploadMspFiles parse world ResponseWriter.fresh r).world.lookup
              (r.FormValue "destination" ++ file.handler.Filename) = some (Node.file m d)) ∧
            (UploadMspFiles parse world ResponseWriter.fresh r).w.response.body =
              utf8 file.handler.Header ++ utf8 ("Remove file err: %s" ++ err))) ∧
      (¬ (copyErr = none ∧
          isZip world3 (r.FormValue "destination" ++ file.handler.Filename) = true ∧
          unzipErr = none) →
        (UploadMspFiles parse world ResponseWriter.fresh r).world =
            (if copyErr = none ∧
                isZip world3 (r.FormValue "destination" ++ file.handler.Filename) = true
              then world4 else world3) ∧
          ∃ m d, (UploadMspFiles parse world ResponseWriter.fresh r).world.lookup
            (r.FormValue "destination" ++ file.handler.Filename) = some (Node.file m d)) := by
  generalize hz : r.FormValue "destination" ++ file.handler.Filename = zipFile
    at hopen hcopy hunzip ⊢
  have hzne : zipFile ≠ "" := by
    intro e
    have hd := data_ne_nil _ hdest
    have : (r.FormValue "destination" ++ file.handler.Filename).data = [] := by rw [hz, e]
    simp [String.data_append] at this
    exact hd this.1
  obtain ⟨_, _, hf2, _, _⟩ := OpenFile_ok _ _ _ _ _ hopen
  have hf3 : world3.fs.fileAt (resolve zipFile.data) := by
    have := Copy_fileAt world2 zipFile file.data file.readErr _ hf2
    rw [hcopy] at this; exact this
  have hf4 : world4.fs.fileAt (resolve zipFile.data) := by
    have := unzip_fileAt parse world3 zipFile (r.FormValue "destination") _ hf3
    rw [hunzip] at this; exact this
  have hres : UploadMspFiles parse world ResponseWriter.fresh r =
      match copyErr with
      | some err =>
        ⟨((ResponseWriter.fresh.Fprint file.handler.Header).WriteHeader 400).Fprint
          ("Copy file err: %s" ++ err), world3, []⟩
      | none =>
        if isZip world3 zipFile then
          match unzipErr with
          | some err =>
            ⟨((ResponseWriter.fresh.Fprint file.handler.Header).WriteHeader 400).Fprint
              ("Unzip file err: %s" ++ err), world4,
              [.unzip zipFile (r.FormValue "destination")]⟩
          | none =>
            match world4.Remove zipFile with
            | (world5, some err) =>
              ⟨((ResponseWriter.fresh.Fprint file.handler.Header).WriteHeader 400).Fprint
                ("Remove file err: %s" ++ err), world5,
                [.unzip zipFile (r.FormValue "destination"), .Remove zipFile]⟩
            | (world5, none) =>
              ⟨ResponseWriter.fresh.Fprint file.handler.Header, world5,
                [.unzip zipFile (r.FormValue "destination"), .Remove zipFile]⟩
        else ⟨ResponseWriter.fresh.Fprint file.handler.Header, world3, []⟩ := by
    simp only [UploadMspFiles, hdest, if_false, hdir, hfile, hz, hopen, hcopy]
    cases copyErr with
    | some err => rfl
    | none =>
      simp only
      by_cases hzip : isZip world3 zipFile = true
      · simp only [hzip, if_true, hunzip]
        cases unzipErr <;> rfl
      · simp only [hzip, if_false]
        rfl
  rw [hres]
  cases copyErr with
  | some err =>
    simp only [reduceCtorEq, false_and, false_implies, not_false_eq_true, forall_const,
      if_false, true_and]
    exact lookup_fileAt world3 zipFile hzne hf3
  | none =>
    by_cases hzip : isZip world3 zipFile = true
    · cases unzipErr with
      | some err =>
        simp only [hzip, if_true, reduceCtorEq, and_false, false_implies, not_false_eq_true,
          forall_const, and_self, true_and]
        exact lookup_fileAt world4 zipFile hzne hf4
      | none =>
        simp only [hzip, if_true, and_self, not_true_eq_false, false_implies, and_true,
          forall_const]
        rcases hr : world4.Remove zipFile with ⟨world5, _ | err⟩
        · refine ⟨rfl, ?_, ?_⟩
          · intro _
            have := Remove_ok world4 zipFile hzne (by rw [hr])
            rw [hr] at this
            refine ⟨this, ?_⟩
            simp [ResponseWriter.response, ResponseWriter.Fprint, ResponseWriter.Write,
              ResponseWriter.WriteHeader, ResponseWriter.fresh]
          · intro err h; simp at h
        · refine ⟨rfl, ?_, ?_⟩
          · intro h; simp at h
          · intro err' h
            simp only [Option.some.injEq] at h
            subst h
            have h5 := Remove_err world4 zipFile err (by rw [hr])
            rw [hr] at h5
            simp only at h5
            subst h5
            refine ⟨lookup_fileAt _ zipFile hzne hf4, ?_⟩
            simp [ResponseWriter.response, ResponseWriter.Fprint, ResponseWriter.Write,
              ResponseWriter.WriteHeader, ResponseWriter.fresh]
    · simp only [hzip, if_false, Bool.false_eq_true, false_and, and_false, false_implies,
        not_false_eq_true, forall_const, true_and]
      exact lookup_fileAt world3 zipFile hzne hf3

theorem upload_archive_invariant_witness :
    (UploadMspFiles Example.parse Example.world ResponseWriter.fresh
        Example.uploadRequest).world.lookup "/data/msp/msp.zip" = none ∧
      (UploadMspFiles Example.parse Example.world ResponseWriter.fresh
        Example.uploadRequest).w.response.body = utf8 "map[]" ∧
      (UploadMspFiles Example.parse Example.world ResponseWriter.fresh
        Example.uploadRequest).world.lookup "/data/msp/a/b.txt" =
          some (Node.file 0o644 [1, 2]) :=
  have h := ((upload_archive_invariant Example.parse Example.world Example.world
    { Example.world with
      fs := Example.world.fs.set (resolve "/data/msp/msp.zip".data) (Node.file 0o666 []) }
    (World.Copy { Example.world with
      fs := Example.world.fs.set (resolve "/data/msp/msp.zip".data) (Node.file 0o666 []) }
      "/data/msp/msp.zip" [0x50, 0x4B, 0x03, 0x04, 0x14] none).1
    (unzip Example.parse (World.Copy { Example.world with
      fs := Example.world.fs.set (resolve "/data/msp/msp.zip".data) (Node.file 0o666 []) }
      "/data/msp/msp.zip" [0x50, 0x4B, 0x03, 0x04, 0x14] none).1
      "/data/msp/msp.zip" "/data/msp/").1
    Example.uploadRequest (Example.upload "msp.zip" [0x50, 0x4B, 0x03, 0x04, 0x14])
    none none (by decide) rfl rfl rfl rfl rfl).1 ⟨rfl, rfl, rfl⟩).2.1 rfl
  ⟨h.1, h.2, by decide⟩
/-! ## Extraction into an empty directory -/

theorem searchable_congr (fs fs' : FS) (r : Bool) :
    ∀ stk : List (List Char), (∀ s, s <:+ stk → fs'.get ⟨r, s⟩ = fs.get ⟨r, s⟩) →
      fs'.searchable r stk = fs.searchable r stk := by
  intro stk
  induction stk with
  | nil =>
    intro h
    simp only [FS.searchable, h [] (List.suffix_refl _)]
  | cons c rest ih =>
    intro h
    simp only [FS.searchable, h (c :: rest) (List.suffix_refl _),
      ih (fun s hs => h s (hs.trans (List.suffix_cons c rest)))]

/-- Below a reachable directory, path resolution passes when every listed
directory on the way has search permission. -/
theorem searchable_of_good (fs : FS) (r : Bool) (tstk : List (List Char))
    (ht : fs.searchable r tstk = true) :
    ∀ stk : List (List Char), tstk <:+ stk →
      (∀ u, tstk <:+ u → u <:+ stk → ∀ m, fs.get ⟨r, u⟩ = some (Node.dir m) →
        ownerSearch m = true) →
      fs.searchable r stk = true := by
  intro stk
  induction stk with
  | nil =>
    intro hsuf _
    have : tstk = [] := List.suffix_nil.1 hsuf
    subst this; exact ht
  | cons c rest ih =>
    intro hsuf hgood
    by_cases he : tstk = c :: rest
    · subst he; exact ht
    · have hsuf' : tstk <:+ rest := suffix_cons_ne tstk rest c hsuf he
      have h1 : fs.searchable r rest = true :=
        ih hsuf' (fun u h1 h2 => hgood u h1 (h2.trans (List.suffix_cons c rest)))
      have h2 : Node.searchable (fs.get ⟨r, c :: rest⟩) = true := by
        cases hg : fs.get ⟨r, c :: rest⟩ with
        | none => rfl
        | some n =>
          cases n with
          | file m d => rfl
          | dir m => exact hgood (c :: rest) hsuf (List.suffix_refl _) m hg
      simp [FS.searchable, h1, h2]

theorem listed_up (fs : FS) (r : Bool) (tstk : List (List Char)) :
    ∀ stk : List (List Char), tstk <:+ stk →
      (∀ c rest, tstk <:+ rest → c :: rest <:+ stk → fs.get ⟨r, c :: rest⟩ ≠ none →
        fs.get ⟨r, rest⟩ ≠ none) →
      fs.get ⟨r, stk⟩ ≠ none → ∀ u, tstk <:+ u → u <:+ stk → fs.get ⟨r, u⟩ ≠ none := by
  intro stk
  induction stk with
  | nil =>
    intro _ _ hl u _ hu
    have : u = [] := List.suffix_nil.1 hu
    subst this; exact hl
  | cons c rest ih =>
    intro hsuf hup hl u hu1 hu2
    rcases List.suffix_cons_iff.1 hu2 with hu | hu
    · rw [hu]; exact hl
    · have hsuf' : tstk <:+ rest := hu1.trans hu
      exact ih hsuf' (fun c' rest' h1 h2 => hup c' rest' h1 (h2.trans (List.suffix_cons c rest)))
        (hup c rest hsuf' (List.suffix_refl _) hl) u hu1 hu

/-- `MkdirAll` below a reachable directory succeeds when the mode it creates
with has write and search permission and everything listed on the way is a
directory with write and search permission whose parent is listed too; all
directories on the way are then such directories. -/
theorem mkdirAllKey_ok (perm umask : Nat) (r : Bool) (tstk : List (List Char))
    (hperm : ownerWrite (createMode perm umask) = true ∧
      ownerSearch (createMode perm umask) = true) :
    ∀ (stk : List (List Char)) (fs : FS), tstk <:+ stk → fs.searchable r tstk = true →
      fs.openDirAt ⟨r, tstk⟩ →
      (∀ u, tstk <:+ u → u <:+ stk → fs.get ⟨r, u⟩ = none ∨ fs.openDirAt ⟨r, u⟩) →
      (∀ c rest, tstk <:+ rest → c :: rest <:+ stk → fs.get ⟨r, c :: rest⟩ ≠ none →
        fs.get ⟨r, rest⟩ ≠ none) →
      (mkdirAllKey perm umask r stk fs).2 = none ∧
        ∀ u, tstk <:+ u → u <:+ stk → (mkdirAllKey perm umask r stk fs).1.openDirAt ⟨r, u⟩ := by
  intro stk
  induction stk with
  | nil =>
    intro fs hsuf _ hdir _ _
    have ht : tstk = [] := List.suffix_nil.1 hsuf
    subst ht
    obtain ⟨m, hm, hw⟩ := hdir
    have e : mkdirAllKey perm umask r [] fs = (fs, none) := by
      rw [mkdirAllKey]; simp only [hm]
    rw [e]
    refine ⟨rfl, ?_⟩
    intro u _ hu
    have : u = [] := List.suffix_nil.1 hu
    subst this; exact ⟨m, hm, hw⟩
  | cons c rest ih =>
    intro fs hsuf hreach hdir hgood hup
    have hsearch : ∀ stk', tstk <:+ stk' → stk' <:+ c :: rest → fs.searchable r stk' = true := by
      intro stk' h1 h2
      apply searchable_of_good fs r tstk hreach stk' h1
      intro u hu1 hu2 m hm
      rcases hgood u hu1 (hu2.trans h2) with h | ⟨m', hm', _, hx⟩
      · rw [h] at hm; simp at hm
      · rw [hm'] at hm
        simp only [Option.some.injEq, Node.dir.injEq] at hm
        subst hm; exact hx
    cases hg : fs.get ⟨r, c :: rest⟩ with
    | some n =>
      have hl : fs.get ⟨r, c :: rest⟩ ≠ none := by rw [hg]; simp
      have hall := listed_up fs r tstk (c :: rest) hsuf hup hl
      obtain ⟨m, hm, _⟩ : fs.openDirAt ⟨r, c :: rest⟩ := by
        rcases hgood (c :: rest) hsuf (List.suffix_refl _) with h | h
        · exact absurd h hl
        · exact h
      have hsr : fs.searchable r rest = true := by
        have := hsearch (c :: rest) hsuf (List.suffix_refl _)
        simp only [FS.searchable, Bool.and_eq_true] at this
        exact this.2
      have e : mkdirAllKey perm umask r (c :: rest) fs = (fs, none) := by
        rw [mkdirAllKey]; simp only [statKey, hsr, if_true, hm]
      rw [e]
      refine ⟨rfl, ?_⟩
      intro u hu1 hu2
      rcases hgood u hu1 hu2 with h | h
      · exact absurd h (hall u hu1 hu2)
      · exact h
    | none =>
      have hne : tstk ≠ c :: rest := by
        intro e
        obtain ⟨m, hm, _⟩ := hdir
        rw [e, hg] at hm; simp at hm
      have hsuf' : tstk <:+ rest := suffix_cons_ne tstk rest c hsuf hne
      have hst : statKey fs r c rest = none := by
        simp [statKey, hg]
      have hsub : (if rest = [] then (fs, none) else mkdirAllKey perm umask r rest fs).2 = none ∧
          (∀ u, tstk <:+ u → u <:+ rest →
            (if rest = [] then (fs, none)
              else mkdirAllKey perm umask r rest fs).1.openDirAt ⟨r, u⟩) ∧
          (∀ k, (if rest = [] then (fs, none)
              else mkdirAllKey perm umask r rest fs).1.get k = fs.get k ∨
            (fs.get k = none ∧ ∃ s, s <:+ rest ∧ k = ⟨r, s⟩ ∧
              ∀ u, s <:+ u → u <:+ rest → fs.get ⟨r, u⟩ = none)) := by
        by_cases hr : rest = []
        · subst hr
          have ht : tstk = [] := List.suffix_nil.1 hsuf'
          subst ht
          refine ⟨by simp, ?_, fun k => Or.inl (by simp)⟩
          intro u _ hu
          have : u = [] := List.suffix_nil.1 hu
          subst this
          simpa using hdir
        · simp only [hr, if_false]
          obtain ⟨h1, h2⟩ := ih fs hsuf' hreach hdir
            (fun u h1 h2 => hgood u h1 (h2.trans (List.suffix_cons c rest)))
            (fun c' rest' h1 h2 => hup c' rest' h1 (h2.trans (List.suffix_cons c rest)))
          refine ⟨h1, h2, ?_⟩
          intro k
          rcases mkdirAllKey_changes perm umask r rest fs k with h | ⟨h3, _, h4⟩
          · exact Or.inl h
          · exact Or.inr ⟨h3, h4⟩
      rcases hsub' : (if rest = [] then (fs, none) else mkdirAllKey perm umask r rest fs) with
        ⟨fs1, e1⟩
      rw [hsub'] at hsub
      obtain ⟨he1, hd1, hch⟩ := hsub
      simp only at he1 hd1 hch
      subst he1
      have hsame : ∀ s, s <:+ tstk → fs1.get ⟨r, s⟩ = fs.get ⟨r, s⟩ := by
        intro s hs
        rcases hch ⟨r, s⟩ with h | ⟨_, s', hs1, hs2, hs3⟩
        · exact h
        · exfalso
          have : s = s' := by simpa using congrArg Key.stack hs2
          subst this
          obtain ⟨m, hm, _⟩ := hdir
          rw [hs3 tstk hs hsuf'] at hm
          simp at hm
      have hreach1 : fs1.searchable r tstk = true := by
        rw [searchable_congr fs fs1 r tstk hsame]; exact hreach
      have hsr1 : fs1.searchable r rest = true := by
        apply searchable_of_good fs1 r tstk hreach1 rest hsuf'
        intro u hu1 hu2 m hm
        obtain ⟨m', hm', _, hx⟩ := hd1 u hu1 hu2
        rw [hm'] at hm
        simp only [Option.some.injEq, Node.dir.injEq] at hm
        subst hm; exact hx
      have hnone1 : fs1.get ⟨r, c :: rest⟩ = none := by
        rcases hch ⟨r, c :: rest⟩ with h | ⟨_, s', hs1, hs2, _⟩
        · rw [h]; exact hg
        · exfalso
          have : c :: rest = s' := by simpa using congrArg Key.stack hs2
          subst this
          have := hs1.length_le
          simp at this
      obtain ⟨mp, hmp, hwp, _⟩ := hd1 rest hsuf' (List.suffix_refl _)
      have hmk : mkdirKey perm umask r c rest fs1 =
          (fs1.set ⟨r, c :: rest⟩ (Node.dir (createMode perm umask)), none) := by
        simp only [mkdirKey, hsr1, if_true, hnone1, hmp, hwp]
      have e : mkdirAllKey perm umask r (c :: rest) fs =
          (fs1.set ⟨r, c :: rest⟩ (Node.dir (createMode perm umask)), none) := by
        rw [mkdirAllKey]; simp only [hst, hsub', hmk]
      rw [e]
      refine ⟨rfl, ?_⟩
      intro u hu1 hu2
      rcases List.suffix_cons_iff.1 hu2 with hu | hu
      · rw [hu]
        exact ⟨_, FS.get_set_self _ _ _, hperm.1, hperm.2⟩
      · have hne' : (⟨r, u⟩ : Key) ≠ ⟨r, c :: rest⟩ := by
          intro e'
          have : u = c :: rest := by simpa using congrArg Key.stack e'
          rw [this] at hu
          have := hu.length_le
          simp at this
        obtain ⟨m, hm, hw⟩ := hd1 u hu1 hu
        exact ⟨m, by rw [FS.get_set_ne _ _ _ _ hne']; exact hm, hw⟩

theorem render_ne_nil (k : Key) (h : CleanStack k.rooted k.stack) : render k ≠ [] := by
  obtain ⟨r, stk⟩ := k
  cases stk with
  | nil => cases r <;> simp [render]
  | cons top rest =>
    cases r with
    | true => simp [render]
    | false =>
      intro e
      have hne : (top :: rest).reverse ≠ [] := by simp
      obtain ⟨y, ys, hys⟩ := List.exists_cons_of_ne_nil hne
      have hy : GoodElem y := h.1 y (List.mem_reverse.1 (by rw [hys]; simp))
      have : List.intercalate ['/'] (y :: ys) = [] := by
        simpa [render, hys] using e
      cases y with
      | nil => exact hy.1 rfl
      | cons a as =>
        cases ys <;> simp [List.intercalate, List.intersperse] at this

theorem Join_ne_empty (target name : String) (ht : target ≠ "") : Join target name ≠ "" := by
  simp only [Join, ne_eq, ht, not_false_eq_true, if_true, Clean]
  intro e
  have := congrArg String.data e
  simp only at this
  exact render_ne_nil _ (resolve_cleanStack _) this

/-- `MkdirAll` of a path inside a reachable directory with write and search
permission, without fault: all directories on the way are directories with
write and search permission afterwards, every other object is as before. -/
theorem MkdirAll_ok (w : World) (path : String) (perm : Nat) (t : Key)
    (hff : w.faultFree) (hp : path ≠ "") (hin : (resolve path.data).within t)
    (hperm : ownerWrite (createMode perm w.umask) = true ∧
      ownerSearch (createMode perm w.umask) = true)
    (hreach : w.fs.searchable t.rooted t.stack = true) (hdir : w.fs.openDirAt t)
    (hgood : ∀ k : Key, k.within t → (resolve path.data).within k →
      w.fs.get k = none ∨ w.fs.openDirAt k)
    (hup : ∀ k : Key, k.within t → k ≠ t → (resolve path.data).within k →
      w.fs.get k ≠ none → w.fs.get k.parent ≠ none) :
    (w.MkdirAll path perm).1.faultFree ∧ (w.MkdirAll path perm).1.umask = w.umask ∧
      (∀ k : Key, k.within t → (resolve path.data).within k →
        (w.MkdirAll path perm).1.fs.openDirAt k) ∧
      ∀ k, (w.MkdirAll path perm).1.fs.get k = w.fs.get k ∨
        (w.fs.get k = none ∧ k.within t ∧ (resolve path.data).within k) := by
  obtain ⟨hr, hsuf⟩ := hin
  have hreach' : w.fs.searchable (resolve path.data).rooted t.stack = true := by
    rw [hr]; exact hreach
  have hdir' : w.fs.openDirAt ⟨(resolve path.data).rooted, t.stack⟩ := by rw [hr]; exact hdir
  have hgood' : ∀ u, t.stack <:+ u → u <:+ (resolve path.data).stack →
      w.fs.get ⟨(resolve path.data).rooted, u⟩ = none ∨
        w.fs.openDirAt ⟨(resolve path.data).rooted, u⟩ :=
    fun u h1 h2 => hgood ⟨(resolve path.data).rooted, u⟩ ⟨hr, h1⟩ ⟨rfl, h2⟩
  have hup' : ∀ c rest, t.stack <:+ rest → c :: rest <:+ (resolve path.data).stack →
      w.fs.get ⟨(resolve path.data).rooted, c :: rest⟩ ≠ none →
      w.fs.get ⟨(resolve path.data).rooted, rest⟩ ≠ none := by
    intro c rest h1 h2 h3
    have hne : (⟨(resolve path.data).rooted, c :: rest⟩ : Key) ≠ t := by
      intro e
      have : c :: rest = t.stack := by rw [← e]
      rw [← this] at h1
      have := h1.length_le
      simp at this
    exact hup ⟨(resolve path.data).rooted, c :: rest⟩
      ⟨hr, h1.trans (List.suffix_cons c rest)⟩ hne ⟨rfl, h2⟩ h3
  obtain ⟨hok, hd⟩ := mkdirAllKey_ok perm w.umask (resolve path.data).rooted t.stack hperm
    (resolve path.data).stack w.fs hsuf hreach' hdir' hgood' hup'
  have hres : w.MkdirAll path perm =
      ({ w with fs := (mkdirAllKey perm w.umask (resolve path.data).rooted
        (resolve path.data).stack w.fs).1 }, none) := by
    simp only [World.MkdirAll, hff (Op.mkdirAll path), hp, if_false]
    rw [← hok]
  rw [hres]
  refine ⟨hff, rfl, ?_, ?_⟩
  · intro k hk1 hk2
    obtain ⟨kr, ks⟩ := k
    have hkr : kr = (resolve path.data).rooted := hk2.1.symm
    subst hkr
    exact hd ks hk1.2 hk2.2
  · intro k
    rcases mkdirAllKey_changes perm w.umask (resolve path.data).rooted
      (resolve path.data).stack w.fs k with h | ⟨hn, _, s, hs1, hs2, hs3⟩
    · exact Or.inl h
    · refine Or.inr ⟨hn, ?_, ?_⟩
      · rw [hs2]
        refine ⟨hr, ?_⟩
        rcases List.suffix_or_suffix_of_suffix hsuf hs1 with h | h
        · exact h
        · exfalso
          obtain ⟨m, hm, _⟩ := hdir'
          rw [hs3 t.stack h hsuf] at hm
          simp at hm
      · rw [hs2]; exact ⟨rfl, hs1⟩

theorem Copy_umask (w : World) (path : String) (data : Bytes) (e : Option String) :
    (w.Copy path data e).1.umask = w.umask := by
  unfold World.Copy
  split
  · rfl
  · split
    · rfl
    · split <;> rfl

/-- Creating a missing file in a reachable directory with write permission and
copying into it, without fault: the file holds the copied bytes, nothing else
changes. -/
theorem writeEntry_ok (w : World) (path : String) (mode : Nat) (data : Bytes)
    (hff : w.faultFree) (hp : path ≠ "") (hnone : w.fs.get (resolve path.data) = none)
    (hne : (resolve path.data).stack ≠ [])
    (hsearch : w.fs.searchable (resolve path.data).rooted (resolve path.data).stack.tail = true)
    (hpar : w.fs.openDirAt (resolve path.data).parent) :
    ∃ w1, w.OpenFile path true mode = .ok w1 ∧ (w1.Copy path data none).2 = none ∧
      (w1.Copy path data none).1.faultFree ∧ (w1.Copy path data none).1.umask = w.umask ∧
      (w1.Copy path data none).1.fs.get (resolve path.data) =
        some (Node.file (createMode mode w.umask) data) ∧
      ∀ k, k ≠ resolve path.data → (w1.Copy path data none).1.fs.get k = w.fs.get k := by
  obtain ⟨c, rest, hstk⟩ := List.exists_cons_of_ne_nil hne
  obtain ⟨m, hm, hw, _⟩ := hpar
  have hm' : w.fs.get ⟨(resolve path.data).rooted, rest⟩ = some (Node.dir m) := by
    simpa [Key.parent, hstk] using hm
  have hopen : w.OpenFile path true mode =
      .ok { w with fs := w.fs.set (resolve path.data) (Node.file (createMode mode w.umask) []) } := by
    have hsearch' : w.fs.searchable (resolve path.data).rooted rest = true := by
      simpa [hstk] using hsearch
    simp only [World.OpenFile, hff (Op.openFile path), hp, if_false, hnone, hstk,
      List.tail_cons, hsearch', if_true, hm', hw]
  refine ⟨_, hopen, ?_⟩
  have hff1 : World.faultFree
      { w with fs := w.fs.set (resolve path.data) (Node.file (createMode mode w.umask) []) } :=
    hff
  have hc := Copy_empty
    { w with fs := w.fs.set (resolve path.data) (Node.file (createMode mode w.umask) []) }
    path data none (createMode mode w.umask) (hff1 (Op.write path)) (FS.get_set_self _ _ _)
  refine ⟨hc.2, ?_, ?_, hc.1, ?_⟩
  · intro op
    rw [Copy_fault]; exact hff op
  · rw [Copy_umask]
  · intro k hk
    rw [Copy_other _ _ _ _ _ hk]
    exact FS.get_set_ne _ _ _ _ hk

theorem within_ne_stack (k t : Key) (hin : k.within t) (hne : k ≠ t) : k.stack ≠ [] := by
  intro e
  apply hne
  obtain ⟨hr, hs⟩ := hin
  rw [e] at hs
  have ht : t.stack = [] := List.suffix_nil.1 hs
  cases k; cases t
  simp_all

theorem parent_within (k t : Key) (hin : k.within t) (hne : k ≠ t) : k.parent.within t := by
  obtain ⟨kr, ks⟩ := k
  obtain ⟨tr, ts⟩ := t
  obtain ⟨hr, hs⟩ := hin
  simp only at hr hs
  subst hr
  cases ks with
  | nil =>
    exfalso; apply hne
    have : ts = [] := List.suffix_nil.1 hs
    rw [this]
  | cons c rest =>
    refine ⟨rfl, ?_⟩
    simp only [Key.parent, List.tail_cons]
    apply suffix_cons_ne ts rest c hs
    intro e; apply hne; rw [e]

theorem Extracted.good {target : String} {umask : Nat} {done : List ZipFile} {w : World}
    (h : Extracted target umask done w) (k : Key) (hk : k.within (resolve target.data))
    (hl : w.fs.get k ≠ none) (hfile : ¬ w.fs.fileAt k) : w.fs.openDirAt k := by
  by_cases hkt : k = resolve target.data
  · rw [hkt]; exact h.tdir
  · rcases h.only k hk hkt with h0 | ⟨g, hg, hgf, hkg⟩ | ⟨d, hd, hdd, hdk⟩
    · exact absurd h0 hl
    · exfalso
      obtain ⟨m, hm⟩ := h.files g hg hgf
      exact hfile ⟨m, g.data, by rw [hkg]; exact hm⟩
    · exact h.dirs d hd hdd k hk hdk

theorem Extracted.searchable {target : String} {umask : Nat} {done : List ZipFile} {w : World}
    (h : Extracted target umask done w) (k : Key) (hk : k.within (resolve target.data)) :
    w.fs.searchable k.rooted k.stack = true := by
  obtain ⟨hr, hs⟩ := hk
  have hreach : w.fs.searchable k.rooted (resolve target.data).stack = true := by
    rw [hr]; exact h.reach
  apply searchable_of_good w.fs k.rooted _ hreach k.stack hs
  intro u hu1 _ m hm
  have hl : w.fs.get ⟨k.rooted, u⟩ ≠ none := by rw [hm]; simp
  have hnf : ¬ w.fs.fileAt ⟨k.rooted, u⟩ := by
    rintro ⟨m', d', hm'⟩; rw [hm] at hm'; simp at hm'
  obtain ⟨m', hm', _, hx⟩ := h.good ⟨k.rooted, u⟩ ⟨hr, hu1⟩ hl hnf
  rw [hm'] at hm
  simp only [Option.some.injEq, Node.dir.injEq] at hm
  subst hm; exact hx

theorem above_ne_entry (t k : Key) (hin : k.within t) (hne : k ≠ t) (s : List (List Char))
    (hs : s <:+ t.stack) : (⟨t.rooted, s⟩ : Key) ≠ k := by
  intro e
  apply hne
  obtain ⟨kr, ks⟩ := k
  obtain ⟨tr, ts⟩ := t
  simp only [Key.mk.injEq] at e
  obtain ⟨e1, e2⟩ := e
  simp only at e1 e2 hs
  subst e1 e2
  have : s = ts := List.IsSuffix.eq_of_length_le hs hin.2.length_le
  rw [this]

/-- The loop of `unzip`, from a state reached after the entries `pre`: it ends
without error in a state where all entries are extracted. -/
theorem unzipFiles_extracts (target : String) (umask : Nat) (ht : target ≠ "")
    (files : List ZipFile)
    (hnames : ∀ f ∈ files, noDotDot f.Name)
    (hmodes : ∀ d ∈ files, d.IsDir = true →
      ownerWrite (createMode d.Mode umask) = true ∧ ownerSearch (createMode d.Mode umask) = true)
    (hread : ∀ f ∈ files, f.IsDir = false → f.openErr = none ∧ f.copyErr = none)
    (hparent : ∀ pre f post, files = pre ++ f :: post → f.IsDir = false →
      entryKey target f ≠ resolve target.data ∧
        ((entryKey target f).parent = resolve target.data ∨
          ∃ d ∈ pre, d.IsDir = true ∧ (entryKey target d).within (entryKey target f).parent))
    (hconf : ∀ f ∈ files, ∀ d ∈ files, f.IsDir = false → d.IsDir = true →
      ¬ (entryKey target d).within (entryKey target f))
    (huniq : ∀ pre f post, files = pre ++ f :: post → f.IsDir = false →
      ∀ g ∈ pre, g.IsDir = false → entryKey target g ≠ entryKey target f) :
    ∀ (rest pre : List ZipFile) (w : World), files = pre ++ rest →
      Extracted target umask pre w →
      (unzipFiles target w rest).2 = none ∧
        Extracted target umask files (unzipFiles target w rest).1 := by
  intro rest
  induction rest with
  | nil =>
    intro pre w hsplit hinv
    simp only [List.append_nil] at hsplit
    subst hsplit
    exact ⟨rfl, hinv⟩
  | cons f rest ih =>
    intro pre w hsplit hinv
    have hf : f ∈ files := by rw [hsplit]; simp
    have hpre : ∀ g ∈ pre, g ∈ files := fun g hg => by rw [hsplit]; simp [hg]
    have hin : (entryKey target f).within (resolve target.data) :=
      within_Join target f.Name ht (hnames f hf)
    have hp : Join target f.Name ≠ "" := Join_ne_empty target f.Name ht
    have hsplit' : files = (pre ++ [f]) ++ rest := by rw [hsplit]; simp
    cases hisdir : f.IsDir with
    | true =>
      have hnofile : ∀ k : Key, (resolve (Join target f.Name).data).within k →
          ∀ g ∈ pre, g.IsDir = false → k ≠ entryKey target g := by
        intro k hk2 g hg hgf hkg
        exact hconf g (hpre g hg) f hf hgf hisdir (hkg ▸ hk2)
      have hgood : ∀ k : Key, k.within (resolve target.data) →
          (resolve (Join target f.Name).data).within k →
          w.fs.get k = none ∨ w.fs.openDirAt k := by
        intro k hk1 hk2
        by_cases hkt : k = resolve target.data
        · right; rw [hkt]; exact hinv.tdir
        · rcases hinv.only k hk1 hkt with h | ⟨g, hg, hgf, hkg⟩ | ⟨d, hd, hdd, hdk⟩
          · exact Or.inl h
          · exact absurd hkg (hnofile k hk2 g hg hgf)
          · exact Or.inr (hinv.dirs d hd hdd k hk1 hdk)
      have hup : ∀ k : Key, k.within (resolve target.data) → k ≠ resolve target.data →
          (resolve (Join target f.Name).data).within k → w.fs.get k ≠ none →
          w.fs.get k.parent ≠ none := by
        intro k hk1 hkt hk2 hl
        rcases hinv.only k hk1 hkt with h | ⟨g, hg, hgf, hkg⟩ | ⟨d, hd, hdd, hdk⟩
        · exact absurd h hl
        · exact absurd hkg (hnofile k hk2 g hg hgf)
        · have hdp : (entryKey target d).within k.parent :=
            ⟨hdk.1, (List.tail_suffix k.stack).trans hdk.2⟩
          obtain ⟨m, hm, _⟩ := hinv.dirs d hd hdd k.parent (parent_within k _ hk1 hkt) hdp
          rw [hm]; simp
      have hperm : ownerWrite (createMode f.Mode w.umask) = true ∧
          ownerSearch (createMode f.Mode w.umask) = true := by
        rw [hinv.mask]; exact hmodes f hf hisdir
      obtain ⟨hff1, hu1, hd1, hk1⟩ := MkdirAll_ok w (Join target f.Name) f.Mode
        (resolve target.data) hinv.ff hp hin hperm hinv.reach hinv.tdir hgood hup
      have hpres : ∀ k n, w.fs.get k = some n →
          (w.MkdirAll (Join target f.Name) f.Mode).1.fs.get k = some n :=
        fun k n h => MkdirAll_preserves _ _ _ _ _ h
      have hopen : ∀ k, w.fs.openDirAt k →
          (w.MkdirAll (Join target f.Name) f.Mode).1.fs.openDirAt k := by
        rintro k ⟨m, hm, hw⟩
        exact ⟨m, hpres _ _ hm, hw⟩
      have hinv1 : Extracted target umask (pre ++ [f])
          (w.MkdirAll (Join target f.Name) f.Mode).1 := by
        refine ⟨hff1, by rw [hu1]; exact hinv.mask, hopen _ hinv.tdir, ?_, ?_, ?_, ?_⟩
        · rw [searchable_congr w.fs _ _ _ ?_]
          · exact hinv.reach
          · intro s hs
            rcases hk1 ⟨(resolve target.data).rooted, s⟩ with h | ⟨hn, hw, _⟩
            · exact h
            · exfalso
              have : s = (resolve target.data).stack :=
                List.IsSuffix.eq_of_length_le hs hw.2.length_le
              obtain ⟨m, hm, _⟩ := hinv.tdir
              rw [this, hm] at hn
              simp at hn
        · intro d hd hdd k hkw hdk
          rcases List.mem_append.1 hd with hd | hd
          · exact hopen _ (hinv.dirs d hd hdd k hkw hdk)
          · have : d = f := by simpa using hd
            subst this; exact hd1 k hkw hdk
        · intro g hg hgf
          rcases List.mem_append.1 hg with hg | hg
          · obtain ⟨m, hm⟩ := hinv.files g hg hgf
            exact ⟨m, hpres _ _ hm⟩
          · have : g = f := by simpa using hg
            subst this; rw [hisdir] at hgf; simp at hgf
        · intro k hk1' hkt
          rcases hk1 k with h | ⟨_, _, hwk⟩
          · rcases hinv.only k hk1' hkt with h0 | ⟨g, hg, hgf, hkg⟩ | ⟨d, hd, hdd, hdk⟩
            · exact Or.inl (by rw [h]; exact h0)
            · exact Or.inr (Or.inl ⟨g, List.mem_append_left _ hg, hgf, hkg⟩)
            · exact Or.inr (Or.inr ⟨d, List.mem_append_left _ hd, hdd, hdk⟩)
          · exact Or.inr (Or.inr ⟨f, by simp, hisdir, hwk⟩)
      have := ih (pre ++ [f]) _ hsplit' hinv1
      simpa only [unzipFiles, hisdir, if_true] using this
    | false =>
      obtain ⟨hoe, hce⟩ := hread f hf hisdir
      obtain ⟨hkt, hparentf⟩ := hparent pre f rest hsplit hisdir
      have hnone : w.fs.get (resolve (Join target f.Name).data) = none := by
        rcases hinv.only _ hin hkt with h | ⟨g, hg, hgf, hkg⟩ | ⟨d, hd, hdd, hdk⟩
        · exact h
        · exact absurd hkg.symm (huniq pre f rest hsplit hisdir g hg hgf)
        · exact absurd hdk (hconf f hf d (hpre d hd) hisdir hdd)
      have hne := within_ne_stack _ _ hin hkt
      have hpw : (resolve (Join target f.Name).data).parent.within (resolve target.data) :=
        parent_within _ _ hin hkt
      have hpar : w.fs.openDirAt (resolve (Join target f.Name).data).parent := by
        rcases hparentf with h | ⟨d, hd, hdd, hdk⟩
        · have h' : (resolve (Join target f.Name).data).parent = resolve target.data := h
          rw [h']; exact hinv.tdir
        · exact hinv.dirs d hd hdd _ hpw hdk
      have hsearch : w.fs.searchable (resolve (Join target f.Name).data).rooted
          (resolve (Join target f.Name).data).stack.tail = true :=
        hinv.searchable _ hpw
      obtain ⟨w1, hopen, hcopy, hff2, hu2, hget2, hother⟩ :=
        writeEntry_ok w (Join target f.Name) f.Mode f.data hinv.ff hp hnone hne hsearch hpar
      have hkeep : ∀ k, w.fs.openDirAt k →
          (w1.Copy (Join target f.Name) f.data none).1.fs.openDirAt k := by
        rintro k ⟨m, hm, hw⟩
        have hk : k ≠ resolve (Join target f.Name).data := by
          intro e; rw [e, hnone] at hm; simp at hm
        exact ⟨m, by rw [hother _ hk]; exact hm, hw⟩
      have hinv2 : Extracted target umask (pre ++ [f])
          (w1.Copy (Join target f.Name) f.data none).1 := by
        refine ⟨hff2, by rw [hu2]; exact hinv.mask, hkeep _ hinv.tdir, ?_, ?_, ?_, ?_⟩
        · rw [searchable_congr w.fs _ _ _ ?_]
          · exact hinv.reach
          · intro s hs
            exact hother _ (above_ne_entry _ _ hin hkt s hs)
        · intro d hd hdd k hkw hdk
          rcases List.mem_append.1 hd with hd | hd
          · exact hkeep _ (hinv.dirs d hd hdd k hkw hdk)
          · have : d = f := by simpa using hd
            subst this; rw [hisdir] at hdd; simp at hdd
        · intro g hg hgf
          rcases List.mem_append.1 hg with hg | hg
          · obtain ⟨m, hm⟩ := hinv.files g hg hgf
            exact ⟨m, by rw [hother _ (huniq pre f rest hsplit hisdir g hg hgf)]; exact hm⟩
          · have : g = f := by simpa using hg
            subst this; exact ⟨_, hget2⟩
        · intro k hk1' hkt'
          by_cases hkf : k = resolve (Join target f.Name).data
          · exact Or.inr (Or.inl ⟨f, by simp, hisdir, hkf⟩)
          · rcases hinv.only k hk1' hkt' with h0 | ⟨g, hg, hgf, hkg⟩ | ⟨d, hd, hdd, hdk⟩
            · exact Or.inl (by rw [hother _ hkf]; exact h0)
            · exact Or.inr (Or.inl ⟨g, List.mem_append_left _ hg, hgf, hkg⟩)
            · exact Or.inr (Or.inr ⟨d, List.mem_append_left _ hd, hdd, hdk⟩)
      have := ih (pre ++ [f]) _ hsplit' hinv2
      have hcopy' : w1.Copy (Join target f.Name) f.data none =
          ((w1.Copy (Join target f.Name) f.data none).1, none) :=
        Prod.ext rfl hcopy
      simp only [unzipFiles, hisdir, Bool.false_eq_true, if_false, hoe, hopen, hce]
      rw [hcopy']
      exact this

/-! ## Extraction of a whole archive -/

theorem FS.get_none_of_keys (fs : FS) (k : Key) (h : ∀ e ∈ fs, e.1 ≠ k) : fs.get k = none := by
  induction fs with
  | nil => rfl
  | cons e rest ih =>
    obtain ⟨k', n⟩ := e
    have hne : k' ≠ k := h (k', n) (List.mem_cons_self _ _)
    simp only [FS.get, hne, if_false]
    exact ih (fun e he => h e (List.mem_cons_of_mem _ he))

/-- C3, as amended.  Without I/O faults, into an existing, reachable directory
with write and search permission and nothing below it, for an archive that
opens, whose entry names have no `..` element, whose directory entries are
created with write and search permission, whose file entries open and read
without error, have pairwise different paths, resolve below the destination
and do not lie on the way to a directory entry, and where the directory of
every file entry is the destination itself or lies on the way to a directory
entry that comes EARLIER in the archive: `unzip` returns no error, every
directory entry is a directory afterwards and every file entry is a file with
the bytes of the entry. -/
theorem unzip_extracts (parse : Bytes → Except String (List ZipFile)) (w : World)
    (archive target : String) (files : List ZipFile)
    (hff : w.faultFree) (ht : target ≠ "")
    (hparse : zipOpenReader parse w archive = .ok files)
    (hdir : w.fs.openDirAt (resolve target.data))
    (hreach : w.fs.searchable (resolve target.data).rooted (resolve target.data).stack = true)
    (hempty : ∀ k : Key, k.within (resolve target.data) → k ≠ resolve target.data →
      w.fs.get k = none)
    (hnames : ∀ f ∈ files, noDotDot f.Name)
    (hmodes : ∀ d ∈ files, d.IsDir = true →
      ownerWrite (createMode d.Mode w.umask) = true ∧
        ownerSearch (createMode d.Mode w.umask) = true)
    (hread : ∀ f ∈ files, f.IsDir = false → f.openErr = none ∧ f.copyErr = none)
    (hparent : ∀ pre f post, files = pre ++ f :: post → f.IsDir = false →
      entryKey target f ≠ resolve target.data ∧
        ((entryKey target f).parent = resolve target.data ∨
          ∃ d ∈ pre, d.IsDir = true ∧ (entryKey target d).within (entryKey target f).parent))
    (hconf : ∀ f ∈ files, ∀ d ∈ files, f.IsDir = false → d.IsDir = true →
      ¬ (entryKey target d).within (entryKey target f))
    (huniq : ∀ pre f post, files = pre ++ f :: post → f.IsDir = false →
      ∀ g ∈ pre, g.IsDir = false → entryKey target g ≠ entryKey target f) :
    (unzip parse w archive target).2 = none ∧
      ∀ f ∈ files,
        (f.IsDir = true → (unzip parse w archive target).1.fs.dirAt (entryKey target f)) ∧
        (f.IsDir = false → ∃ m, (unzip parse w archive target).1.fs.get (entryKey target f) =
          some (Node.file m f.data)) := by
  have hinv0 : Extracted target w.umask [] w := by
    refine ⟨hff, rfl, hdir, hreach, ?_, ?_, ?_⟩
    · intro d hd; simp at hd
    · intro f hf; simp at hf
    · intro k hk hne
      exact Or.inl (hempty k hk hne)
  have h := unzipFiles_extracts target w.umask ht files hnames hmodes hread hparent hconf huniq
    files [] w (by simp) hinv0
  simp only [unzip, hparse]
  refine ⟨h.1, fun f hf => ⟨?_, h.2.files f hf⟩⟩
  intro hfd
  obtain ⟨m, hm, _⟩ := h.2.dirs f hf hfd (entryKey target f)
    (within_Join target f.Name ht (hnames f hf)) ⟨rfl, List.suffix_refl _⟩
  exact ⟨m, hm⟩

/-- C3 as stated fails: into the empty directory `/data/msp`, without faults, the
archive whose only entry is the file `a/b.txt` is not extracted, and neither is
the archive that lists the file `a/b.txt` before the directory `a/`: `unzip`
returns the error of `os.OpenFile` and no file `/data/msp/a/b.txt` exists. -/
theorem unzip_missing_parent :
    noDotDot "a/b.txt" ∧ isRelative "a/b.txt" ∧
      (unzip (fun _ => .ok [⟨"a/b.txt", false, 0o644, none, [1, 2], none⟩])
          Example.archiveWorld "/a.zip" "/data/msp").2 =
        some "open /data/msp/a/b.txt: no such file or directory" ∧
      (unzip (fun _ => .ok [⟨"a/b.txt", false, 0o644, none, [1, 2], none⟩])
          Example.archiveWorld "/a.zip" "/data/msp").1.lookup "/data/msp/a/b.txt" = none ∧
      (unzip (fun _ => .ok [⟨"a/b.txt", false, 0o644, none, [1, 2], none⟩,
            ⟨"a/", true, 0o755, none, [], none⟩])
          Example.archiveWorld "/a.zip" "/data/msp").2 =
        some "open /data/msp/a/b.txt: no such file or directory" := by
  decide

/-- The directory entry `a/b/` makes `a` on its way, so the file entry `a/c.txt`
that follows is extracted although the archive has no entry `a/`. -/
theorem unzip_nested_directory :
    (unzip (fun _ => .ok [⟨"a/b/", true, 0o755, none, [], none⟩,
          ⟨"a/c.txt", false, 0o644, none, [7], none⟩])
        Example.archiveWorld "/a.zip" "/data/msp").2 = none ∧
      (unzip (fun _ => .ok [⟨"a/b/", true, 0o755, none, [], none⟩,
          ⟨"a/c.txt", false, 0o644, none, [7], none⟩])
        Example.archiveWorld "/a.zip" "/data/msp").1.lookup "/data/msp/a/c.txt" =
          some (Node.file 0o644 [7]) := by
  decide

/-- Into a destination without write permission nothing is extracted: the file
entry `b.txt` fails with the error of `os.OpenFile`. -/
theorem unzip_readonly_destination :
    (unzip (fun _ => .ok [⟨"b.txt", false, 0o644, none, [7], none⟩])
        { fs := [(⟨true, ["a.zip".data]⟩, Node.file 0o644 [0x50, 0x4B, 0x03, 0x04]),
            (⟨true, ["msp".data, "data".data]⟩, Node.dir 0o555),
            (⟨true, ["data".data]⟩, Node.dir 0o755)],
          fault := fun _ => none }
        "/a.zip" "/data/msp").2 = some "open /data/msp/b.txt: permission denied" := by
  decide

theorem unzip_extracts_witness :
    (unzip Example.parse Example.archiveWorld "/a.zip" "/data/msp").2 = none ∧
      ∀ f ∈ Example.entries,
        (f.IsDir = true → (unzip Example.parse Example.archiveWorld "/a.zip"
          "/data/msp").1.fs.dirAt (entryKey "/data/msp" f)) ∧
        (f.IsDir = false → ∃ m, (unzip Example.parse Example.archiveWorld "/a.zip"
          "/data/msp").1.fs.get (entryKey "/data/msp" f) = some (Node.file m f.data)) :=
  unzip_extracts Example.parse Example.archiveWorld "/a.zip" "/data/msp" Example.entries
    (fun _ => rfl) (by decide) rfl ⟨0o755, by decide, by decide, by decide⟩ (by decide)
    (by
      intro k hk hne
      apply FS.get_none_of_keys
      intro e he
      simp only [Example.archiveWorld, Example.world, List.mem_cons, List.mem_singleton,
        List.not_mem_nil, or_false] at he
      rcases he with rfl | rfl | rfl
      · intro e; subst e; exact absurd hk (by decide)
      · intro e; exact hne (e ▸ by decide)
      · intro e; subst e; exact absurd hk (by decide))
    (by decide) (by decide) (by decide)
    (by
      intro pre f post h hf
      rcases pre with _ | ⟨x, _ | ⟨y, pre⟩⟩
      · simp only [Example.entries, List.nil_append, List.cons.injEq] at h
        obtain ⟨rfl, _⟩ := h
        simp at hf
      · simp only [Example.entries, List.cons_append, List.nil_append, List.cons.injEq] at h
        obtain ⟨rfl, rfl, _⟩ := h
        exact ⟨by decide, Or.inr ⟨_, List.mem_singleton.2 rfl, rfl, by decide⟩⟩
      · simp [Example.entries] at h)
    (by decide)
    (by
      intro pre f post h hf g hg hgf
      rcases pre with _ | ⟨x, _ | ⟨y, pre⟩⟩
      · simp at hg
      · simp only [Example.entries, List.cons_append, List.nil_append, List.cons.injEq] at h
        obtain ⟨rfl, rfl, _⟩ := h
        have : g = ⟨"a/", true, 0o755, none, [], none⟩ := List.mem_singleton.1 hg
        subst this
        simp at hgf
      · simp [Example.entries] at h)

end Rest
